import Mathlib

/-!
Shallow embedding of the Katzenpost server core (`mixkey.go` and `pki.go`)
used to settle the specification claims.

Modelling conventions:
* Go byte slices are `List Nat` (each element a byte value `< 256`; theorems
  add well-formedness hypotheses where that bound matters).
* The bolt database is a pair of optional buckets (a bucket is an
  association list); the filesystem is an association list from the epoch in
  the `mixkey-{epoch}.db` file name to the file contents.  bolt transactions
  are durable on return, so every operation threads the filesystem value.
* Go `panic` is the `aborted` constructor of an explicit outcome type;
  fallible constructors return `Except`.
* `uint64` / `uint8` / `int32` arithmetic is `Nat`/`Int` arithmetic reduced
  modulo `2^64` / `2^8` / `2^32` exactly where the Go expression can wrap.
-/

/-- Byte strings (Go `[]byte`): lists of byte values. -/
abbrev Bytes := List Nat

/-- Association-list maps, used for bolt buckets, Go maps and the modelled
filesystem.  `alistPut` overwrites any previous binding. -/
def alistPut {α β : Type} [DecidableEq α] (m : List (α × β)) (k : α) (v : β) :
    List (α × β) :=
  (k, v) :: m.filter (fun p => decide (p.1 ≠ k))

/-- Lookup in an association list. -/
def alistGet {α β : Type} [DecidableEq α] : List (α × β) → α → Option β
  | [], _ => none
  | p :: t, k => if p.1 = k then some p.2 else alistGet t k

theorem alistGet_put_self {α β : Type} [DecidableEq α]
    (m : List (α × β)) (k : α) (v : β) : alistGet (alistPut m k v) k = some v := by
  simp [alistGet, alistPut]

theorem alistGet_filter_ne {α β : Type} [DecidableEq α]
    (m : List (α × β)) (k k' : α) (h : k' ≠ k) :
    alistGet (m.filter (fun p => decide (p.1 ≠ k))) k' = alistGet m k' := by
  induction m with
  | nil => rfl
  | cons p t ih =>
    by_cases hp : p.1 = k
    · rw [List.filter_cons_of_neg (by simp [hp]), alistGet,
        if_neg (fun hc : p.1 = k' => h (hc ▸ hp))]
      exact ih
    · rw [List.filter_cons_of_pos (by simp [hp])]
      by_cases hk' : p.1 = k'
      · rw [alistGet, if_pos hk', alistGet, if_pos hk']
      · rw [alistGet, if_neg hk', alistGet, if_neg hk']
        exact ih

theorem alistGet_put_ne {α β : Type} [DecidableEq α]
    (m : List (α × β)) (k k' : α) (v : β) (h : k' ≠ k) :
    alistGet (alistPut m k v) k' = alistGet m k' := by
  unfold alistPut
  rw [alistGet, if_neg (fun hc : k = k' => h hc.symm)]
  exact alistGet_filter_ne m k k' h

/-- Decode an 8-byte little-endian value (`binary.LittleEndian.Uint64`). -/
def leUint64 (b : Bytes) : Nat :=
  b.foldr (fun x acc => acc * 256 + x) 0

/-- Encode a `uint64` as 8 little-endian bytes
(`binary.LittleEndian.PutUint64`). -/
def putUint64 (n : Nat) : Bytes :=
  [n % 256, n / 256 % 256, n / 256 ^ 2 % 256, n / 256 ^ 3 % 256,
   n / 256 ^ 4 % 256, n / 256 ^ 5 % 256, n / 256 ^ 6 % 256, n / 256 ^ 7 % 256]

theorem putUint64_length (n : Nat) : (putUint64 n).length = 8 := rfl

theorem leUint64_putUint64 (n : Nat) (h : n < 2 ^ 64) :
    leUint64 (putUint64 n) = n := by
  simp only [leUint64, putUint64, List.foldr]
  omega

/-- One bolt bucket: keys and values are byte strings. -/
abbrev Bucket := List (Bytes × Bytes)

/-- Contents of one `mixkey-{epoch}.db` file: the two buckets, each possibly
absent (a freshly created file has neither). -/
structure DBFile where
  metadata : Option Bucket
  replay : Option Bucket
deriving DecidableEq

/-- The data directory: maps the epoch embedded in the `mixkey-{epoch}.db`
file name to the file contents. -/
abbrev FS := List (Nat × DBFile)

/-- Reasons the Go code calls `panic` in the modelled fragment. -/
inductive PanicReason where
  | replayBucketMissing
  | useAfterClose
  | danglingHandle
  | refcountNegative
  | refcountZeroOrNegative
deriving DecidableEq

/-- Result of an operation that can `panic` in Go. -/
inductive Outcome (α : Type) where
  | aborted (reason : PanicReason)
  | ok (val : α)
deriving DecidableEq

/-- Equality of `Except` results is decidable when both components are. -/
instance {e a : Type} [DecidableEq e] [DecidableEq a] :
    DecidableEq (Except e a) := fun
  | .error x, .error y =>
    if h : x = y then .isTrue (h ▸ rfl)
    else .isFalse (fun hc => h (Except.error.inj hc))
  | .error _, .ok _ => .isFalse (fun hc => Except.noConfusion hc)
  | .ok _, .error _ => .isFalse (fun hc => Except.noConfusion hc)
  | .ok x, .ok y =>
    if h : x = y then .isTrue (h ▸ rfl)
    else .isFalse (fun hc => h (Except.ok.inj hc))

/-- Errors returned by `mixkey.New`. -/
inductive NewError where
  | incompatibleVersion
  | missingPrivateKey
  | invalidKeySize
  | missingEpochEntry
  | corruptedEpochEntry
  | epochMismatch
deriving DecidableEq

/-- The metadata-bucket key `"version"` (ASCII bytes). -/
def versionKey : Bytes := [118, 101, 114, 115, 105, 111, 110]

/-- The metadata-bucket key `"privateKey"` (ASCII bytes). -/
def pkKey : Bytes := [112, 114, 105, 118, 97, 116, 101, 75, 101, 121]

/-- The metadata-bucket key `"epochKey"` (ASCII bytes). -/
def epochKey : Bytes := [101, 112, 111, 99, 104, 75, 101, 121]

/-- The public half of an ecdh keypair.  `ecdh.PrivateKey.PublicKey()`
applies X25519 base-point scalar multiplication to the private scalar; the
curve operation lives outside this repository, so it is modelled as a fixed
deterministic function of the private-key bytes — determinism is the only
property the development relies on. -/
def derivePublicKey (priv : Bytes) : Bytes := priv.reverse

/-- `mixkey.MixKey`.  `db` holds the filesystem key of the open database
file (`none` models the nil pointer after close); `keypair` holds the
private-key bytes (`none` after `Reset`). -/
structure MixKey where
  db : Option Nat
  keypair : Option Bytes
  epoch : Nat
  refCount : Int
  unlinkIfExpired : Bool
deriving DecidableEq

/-- The public component of the key (`MixKey.PublicKey`). -/
def MixKey.PublicKey (k : MixKey) : Option Bytes :=
  k.keypair.map derivePublicKey

/-- The replay counter the `IsReplay` transaction reads for a tag: the
decoded stored value when it is exactly 8 bytes long, else 0 (`bkt.Get`
returns nil for a missing key, and the code guards on `len(b) == 8`). -/
def priorCount (bkt : Bucket) (tag : Bytes) : Nat :=
  match alistGet bkt tag with
  | some b => if b.length = 8 then leUint64 b else 0
  | none => 0

/-- The incremented counter written back by `IsReplay`: `uint64` increment,
with the wrap to 0 replaced by the maximum (`seenCount = math.MaxUint64`). -/
def satIncr (c : Nat) : Nat :=
  if (c + 1) % 2 ^ 64 = 0 then 2 ^ 64 - 1 else (c + 1) % 2 ^ 64

/-- `MixKey.IsReplay`: mark a replay tag as seen and report whether it had
been seen before (test and set).  Empty tags are replays; the update runs in
a durable bolt transaction, hence the threaded filesystem. -/
def MixKey.IsReplay (k : MixKey) (fs : FS) (tag : Bytes) :
    Outcome (Bool × FS) :=
  if tag.length = 0 then .ok (true, fs)
  else
    match k.db with
    | none => .aborted .useAfterClose
    | some h =>
      match alistGet fs h with
      | none => .aborted .danglingHandle
      | some f =>
        match f.replay with
        | none => .aborted .replayBucketMissing
        | some bkt =>
          let seenCount := satIncr (priorCount bkt tag)
          let bkt' := alistPut bkt tag (putUint64 seenCount)
          .ok (decide (seenCount ≠ 1),
               alistPut fs h { f with replay := some bkt' })

/-- `int32` wrap-around for the result of `atomic.AddInt32`. -/
def wrap32 (i : Int) : Int := (i + 2 ^ 31) % 2 ^ 32 - 2 ^ 31

/-- `MixKey.forceClose`: flush and close the store, unlink the file when the
key is expired and the owner requested cleanup, and zeroize the keypair.
`now` is the wall-clock epoch obtained from `epochtime.Now()`; the Go
condition `k.epoch < epoch-1` subtracts in `uint64`. -/
def MixKey.forceClose (k : MixKey) (fs : FS) (now : Nat) : MixKey × FS :=
  let step :=
    match k.db with
    | some h =>
      let fs :=
        if k.unlinkIfExpired ∧ k.epoch < (now + (2 ^ 64 - 1)) % 2 ^ 64 then
          fs.filter (fun p : Nat × DBFile => decide (p.1 ≠ h))
        else fs
      ({ k with db := none }, fs)
    | none => (k, fs)
  match step.1.keypair with
  | some _ => ({ step.1 with keypair := none }, step.2)
  | none => step

/-- `MixKey.Deref`: drop one reference; close the key when the count hits 0,
panic when it goes negative. -/
def MixKey.Deref (k : MixKey) (fs : FS) (now : Nat) : Outcome (MixKey × FS) :=
  let i := wrap32 (k.refCount - 1)
  if i = 0 then .ok (MixKey.forceClose { k with refCount := i } fs now)
  else if i < 0 then .aborted .refcountNegative
  else .ok ({ k with refCount := i }, fs)

/-- `MixKey.Ref`: take one reference; panic when the previous count was zero
or negative (the new count is `<= 1`). -/
def MixKey.Ref (k : MixKey) : Outcome MixKey :=
  let i := wrap32 (k.refCount + 1)
  if i ≤ 1 then .aborted .refcountZeroOrNegative
  else .ok { k with refCount := i }

/-- `mixkey.New`: create or load the mix key for `epoch` in the data
directory.  `freshPriv` stands for the bytes `ecdh.NewKeypair(rand.Reader)`
would produce when a new key is generated (randomness is an input of the
model).  On a transaction error the whole update rolls back and the Go code
returns `nil, err`. -/
def newMixKey (fs : FS) (epoch : Nat) (freshPriv : Bytes) :
    Except NewError (MixKey × FS) :=
  -- bolt.Open creates the file when it does not exist yet.
  let file0 : DBFile := (alistGet fs epoch).getD ⟨none, none⟩
  let fsOpened := alistPut fs epoch file0
  -- The update transaction: ensure both buckets exist, then load or create.
  let mbkt := file0.metadata.getD []
  let rbkt := file0.replay.getD []
  let txResult : Except NewError (Bytes × Bucket) :=
    match alistGet mbkt versionKey with
    | some b =>
      -- Loaded as opposed to created.
      if b ≠ [0] then .error .incompatibleVersion
      else
        match alistGet mbkt pkKey with
        | none => .error .missingPrivateKey
        | some pk =>
          -- ecdh.PrivateKey.FromBytes rejects any length other than 32.
          if pk.length ≠ 32 then .error .invalidKeySize
          else
            match alistGet mbkt epochKey with
            | none => .error .missingEpochEntry
            | some eb =>
              if eb.length ≠ 8 then .error .corruptedEpochEntry
              else if leUint64 eb ≠ epoch then .error .epochMismatch
              else .ok (pk, mbkt)
    | none =>
      -- A new key needs to be created.
      let mbkt := alistPut (alistPut (alistPut mbkt versionKey [0])
        pkKey freshPriv) epochKey (putUint64 epoch)
      .ok (freshPriv, mbkt)
  match txResult with
  | .error e => .error e
  | .ok (pk, mbkt') =>
    .ok ({ db := some epoch, keypair := some pk, epoch := epoch,
           refCount := 1, unlinkIfExpired := false },
         alistPut fsOpened epoch ⟨some mbkt', some rbkt⟩)

/-- Iterate `IsReplay` on one tag: `isReplayTrace k fs tag n` is the result
of the `(n+1)`-st call, each call running on the filesystem the previous one
produced. -/
def isReplayTrace (k : MixKey) (fs : FS) (tag : Bytes) : Nat → Outcome (Bool × FS)
  | 0 => k.IsReplay fs tag
  | n + 1 =>
    match isReplayTrace k fs tag n with
    | .aborted r => .aborted r
    | .ok (_, fs') => k.IsReplay fs' tag

/-- `n` consecutive `Ref` calls. -/
def refN : Nat → MixKey → Outcome MixKey
  | 0, k => .ok k
  | n + 1, k =>
    match refN n k with
    | .aborted r => .aborted r
    | .ok k' => k'.Ref

/-- `n` consecutive `Deref` calls, counting how many of them closed the key
(reached refcount 0). -/
def derefN (now : Nat) : Nat → MixKey → FS → Nat → Outcome (MixKey × FS × Nat)
  | 0, k, fs, closes => .ok (k, fs, closes)
  | n + 1, k, fs, closes =>
    let didClose := if wrap32 (k.refCount - 1) = 0 then 1 else 0
    match k.Deref fs now with
    | .aborted r => .aborted r
    | .ok (k', fs') => derefN now n k' fs' (closes + didClose)

/-- `N` `Ref` calls followed by `N+1` `Deref` calls (the extra one dropping
the initial reference held since `New`), reporting the close count. -/
def refDerefSeq (N : Nat) (k : MixKey) (fs : FS) (now : Nat) :
    Outcome (MixKey × FS × Nat) :=
  match refN N k with
  | .aborted r => .aborted r
  | .ok k' => derefN now (N + 1) k' fs 0

/-!  PKI consensus cache (`pki.go`). -/

/-- `constants.NodeIDLength` from the sphinx constants package. -/
def NodeIDLength : Nat := 32

/-- `cpki.LayerProvider`: the sentinel layer value carried by providers. -/
def LayerProvider : Nat := 255

/-- `copy(id[:], b)` into a `[32]byte`: keep the first 32 bytes and zero-pad
short inputs. -/
def toNodeID (b : Bytes) : Bytes :=
  b.take NodeIDLength ++ List.replicate (NodeIDLength - b.length) 0

/-- `cpki.MixDescriptor`: the fields the modelled code reads.  Identity and
link keys are their byte serializations; `name` is abstracted to a number so
that the model stays string-free. -/
structure MixDescriptor where
  name : Nat
  identityKey : Bytes
  linkKey : Bytes
  layer : Nat
deriving DecidableEq

/-- `cpki.Document`: an epoch's consensus. -/
structure Document where
  epoch : Nat
  topology : List (List MixDescriptor)
  providers : List MixDescriptor
deriving DecidableEq

/-- `pkiCacheEntry`: a document plus the derived views. -/
structure PkiCacheEntry where
  doc : Document
  self : MixDescriptor
  incoming : List (Bytes × MixDescriptor)
  outgoing : List (Bytes × MixDescriptor)
deriving DecidableEq

/-- The server configuration fields the modelled code reads
(`Server.Identifier`, `Server.IsProvider`,
`Debug.DisableMixAuthentication`). -/
structure ServerCfg where
  identifier : Nat
  isProvider : Bool
  disableMixAuthentication : Bool
deriving DecidableEq

/-- `pkiCacheEntry.isOurLayerSane`. -/
def isOurLayerSane (e : PkiCacheEntry) (isProvider : Bool) : Bool :=
  if isProvider && !(e.self.layer == LayerProvider) then false
  else if !isProvider && (e.self.layer == LayerProvider) then false
  else if !isProvider && decide (e.doc.topology.length ≤ e.self.layer) then false
  else true

/-- `pkiCacheEntry.incomingLayer`.  The provider case computes
`uint8(len(e.doc.Topology)) - 1` in `uint8` arithmetic. -/
def incomingLayer (e : PkiCacheEntry) : Nat :=
  if e.self.layer = LayerProvider then
    (e.doc.topology.length % 256 + 255) % 256
  else if e.self.layer = 0 then LayerProvider
  else e.self.layer - 1

/-- `pkiCacheEntry.outgoingLayer`.  The Go `switch` compares
`int(e.self.Layer)` with `len(Topology) - 1` first; `self.layer + 1 =
length` is that comparison without natural-number truncation. -/
def outgoingLayer (e : PkiCacheEntry) : Nat :=
  if e.self.layer + 1 = e.doc.topology.length then LayerProvider
  else if e.self.layer = LayerProvider then 0
  else (e.self.layer + 1) % 256

/-- The descriptor list `buildMap` iterates for a layer: the providers for
the sentinel, else the topology layer (the computed index is always in
range when the entry passed the sanity checks, so the default is
unreachable). -/
def layerNodes (d : Document) (layer : Nat) : List MixDescriptor :=
  if layer = LayerProvider then d.providers else d.topology.getD layer []

/-- The `buildMap` closure of `newPKICacheEntry`: index a layer's
descriptors by node id. -/
def buildMap (d : Document) (layer : Nat) : List (Bytes × MixDescriptor) :=
  (layerNodes d layer).foldl
    (fun m v => alistPut m (toNodeID v.identityKey) v) []

/-- Errors of `newPKICacheEntry` (including the document lookup). -/
inductive CacheError where
  | notInDocument
  | missingTopology
  | nameMismatch
  | invalidLayer
deriving DecidableEq

/-- Modelled from the spec: `cpki.Document.GetNodeByKey` lives in the
external PKI library; it returns the descriptor whose identity key equals
the given bytes, searching the topology layer by layer and then the
providers, and fails when there is none. -/
def getNodeByKey (d : Document) (key : Bytes) : Except CacheError MixDescriptor :=
  match (d.topology.flatten ++ d.providers).find?
      (fun m => decide (m.identityKey = key)) with
  | some m => .ok m
  | none => .error .notInDocument

/-- `newPKICacheEntry`: locate our descriptor, sanity-check it, and build
the incoming/outgoing maps.  `identityPub` is
`s.identityKey.PublicKey().Bytes()`. -/
def newPKICacheEntry (identityPub : Bytes) (cfg : ServerCfg) (d : Document) :
    Except CacheError PkiCacheEntry :=
  match getNodeByKey d identityPub with
  | .error e => .error e
  | .ok self =>
    let e0 : PkiCacheEntry := ⟨d, self, [], []⟩
    if d.topology.length = 0 then .error .missingTopology
    else if cfg.identifier ≠ self.name then .error .nameMismatch
    else if !(isOurLayerSane e0 cfg.isProvider) then .error .invalidLayer
    else
      .ok { e0 with
        incoming := buildMap d (incomingLayer e0),
        outgoing := buildMap d (outgoingLayer e0) }

/-- One nanosecond-denominated minute (`time.Minute`). -/
def minuteNs : Nat := 60 * 1000000000

/-- `pkiEarlyConnectSlack` (30 minutes). -/
def pkiEarlyConnectSlack : Nat := 30 * minuteNs

/-- `pkiLateConnectSlack` (3 minutes). -/
def pkiLateConnectSlack : Nat := 3 * minuteNs

/-- `earlySendSlack` of `authenticateIncoming` (2 minutes). -/
def earlySendSlack : Nat := 2 * minuteNs

/-- `lateSendSlack` of `authenticateIncoming` (2 minutes). -/
def lateSendSlack : Nat := 2 * minuteNs

/-- The epoch duration of the external `epochtime` package (3 hours); only
the fact that it is at least 30 minutes is used below. -/
def epochPeriod : Nat := 180 * minuteNs

/-- `uint64` successor (`now + 1`). -/
def succ64 (n : Nat) : Nat := (n + 1) % 2 ^ 64

/-- `uint64` predecessor (`now - 1`). -/
def pred64 (n : Nat) : Nat := (n + (2 ^ 64 - 1)) % 2 ^ 64

/-- The epoch search set built at the top of `authenticateIncoming`:
always `now`; also `now+1` within 30 minutes of the next transition, else
`now-1` within 3 minutes after the last one. -/
def incomingEpochs (now elapsed till : Nat) : List Nat :=
  if till < pkiEarlyConnectSlack then [now, succ64 now]
  else if elapsed < pkiLateConnectSlack then [now, pred64 now]
  else [now]

/-- The epoch search set of `docsForOutgoing` (textually duplicated logic
in the source). -/
def outgoingEpochs (now elapsed till : Nat) : List Nat :=
  if till < pkiEarlyConnectSlack then [now, succ64 now]
  else if elapsed < pkiLateConnectSlack then [now, pred64 now]
  else [now]

/-- `pki.docsForEpochs`: collect the cached entries present for the given
epochs. -/
def docsForEpochs (docs : List (Nat × PkiCacheEntry)) (epochs : List Nat) :
    List PkiCacheEntry :=
  epochs.filterMap (fun epoch => alistGet docs epoch)

/-- `pki.docsForOutgoing`. -/
def docsForOutgoing (docs : List (Nat × PkiCacheEntry))
    (now elapsed till : Nat) : List PkiCacheEntry × Nat :=
  (docsForEpochs docs (outgoingEpochs now elapsed till), now)

/-- `wire.PeerCredentials`: the peer's claimed node id bytes and its link
public key (as its byte serialization, matching `c.PublicKey.Bytes()`). -/
structure PeerCredentials where
  additionalData : Bytes
  publicKey : Bytes
deriving DecidableEq

/-- The search loop of `authenticateIncoming` over the collected cache
entries, carrying the `isValid` accumulator. -/
def authIncomingLoop (now elapsed till : Nat) (id pk : Bytes) :
    List PkiCacheEntry → Bool → Bool × Bool
  | [], isValid => (false, isValid)
  | d :: rest, isValid =>
    match alistGet d.incoming id with
    | none => authIncomingLoop now elapsed till id pk rest isValid
    | some m =>
      if m.linkKey ≠ pk then
        authIncomingLoop now elapsed till id pk rest isValid
      else if d.doc.epoch = now then (true, true)
      else if d.doc.epoch = succ64 now ∧ till < earlySendSlack then (true, true)
      else if d.doc.epoch = pred64 now ∧ elapsed < lateSendSlack then (true, true)
      else authIncomingLoop now elapsed till id pk rest true

/-- `pki.authenticateIncoming`, returning `(canSend, isValid)`.  The
wall-clock reading `epochtime.Now()` is passed as `(now, elapsed, till)`. -/
def authenticateIncoming (cfg : ServerCfg) (docs : List (Nat × PkiCacheEntry))
    (now elapsed till : Nat) (c : PeerCredentials) : Bool × Bool :=
  if cfg.disableMixAuthentication then (true, true)
  else
    let epochs := incomingEpochs now elapsed till
    if c.additionalData.length ≠ NodeIDLength then (false, false)
    else
      authIncomingLoop now elapsed till (toNodeID c.additionalData)
        c.publicKey (docsForEpochs docs epochs) false

/-- The search loop of `authenticateOutgoing`, carrying the descriptor and
`isValid` accumulators. -/
def authOutgoingLoop (now : Nat) (id pk : Bytes) :
    List PkiCacheEntry → Option MixDescriptor → Bool →
    Option MixDescriptor × Bool × Bool
  | [], desc, isValid => (desc, false, isValid)
  | d :: rest, desc, isValid =>
    match alistGet d.outgoing id with
    | none => authOutgoingLoop now id pk rest desc isValid
    | some m =>
      if m.linkKey ≠ pk then authOutgoingLoop now id pk rest desc isValid
      else if d.doc.epoch = now then (some m, true, true)
      else authOutgoingLoop now id pk rest (some m) true

/-- `pki.authenticateOutgoing`, returning `(desc, canSend, isValid)`.  No
length check on the additional data: callers set or validate it. -/
def authenticateOutgoing (cfg : ServerCfg) (docs : List (Nat × PkiCacheEntry))
    (now elapsed till : Nat) (c : PeerCredentials) :
    Option MixDescriptor × Bool × Bool :=
  if cfg.disableMixAuthentication then (none, true, true)
  else
    let id := toNodeID c.additionalData
    let found := docsForOutgoing docs now elapsed till
    authOutgoingLoop found.2 id c.publicKey found.1 none false

/-!  Helper lemmas. -/

theorem alistGet_filter_self {α β : Type} [DecidableEq α]
    (m : List (α × β)) (k : α) :
    alistGet (m.filter (fun p => decide (p.1 ≠ k))) k = none := by
  induction m with
  | nil => rfl
  | cons p t ih =>
    by_cases hp : p.1 = k
    · rw [List.filter_cons_of_neg (by simp [hp])]
      exact ih
    · rw [List.filter_cons_of_pos (by simp [hp]), alistGet, if_neg hp]
      exact ih

theorem satIncr_pos (c : Nat) : 0 < satIncr c := by
  unfold satIncr
  split <;> omega

theorem satIncr_lt (c : Nat) : satIncr c < 2 ^ 64 := by
  unfold satIncr
  split <;> omega

theorem satIncr_eq_one_iff (c : Nat) (h : c < 2 ^ 64) :
    (satIncr c = 1 ↔ c = 0) := by
  unfold satIncr
  split <;> omega

theorem satIncr_saturates (c : Nat) (h : c < 2 ^ 64) :
    satIncr c = min (c + 1) (2 ^ 64 - 1) := by
  unfold satIncr
  split <;> omega

theorem toNodeID_of_length (b : Bytes) (h : b.length = NodeIDLength) :
    toNodeID b = b := by
  unfold toNodeID
  rw [h]
  rw [show NodeIDLength - NodeIDLength = 0 from Nat.sub_self _]
  rw [List.replicate_zero, List.append_nil, ← h, List.take_length]

theorem succ64_ne (n : Nat) : succ64 n ≠ n := by
  unfold succ64
  omega

theorem pred64_ne (n : Nat) : pred64 n ≠ n := by
  unfold pred64
  omega

theorem succ64_ne_pred64 (n : Nat) : succ64 n ≠ pred64 n := by
  unfold succ64 pred64
  omega

theorem wrap32_eq_self (i : Int) (h1 : -2 ^ 31 ≤ i) (h2 : i < 2 ^ 31) :
    wrap32 i = i := by
  unfold wrap32
  omega

theorem priorCount_put (bkt : Bucket) (tag : Bytes) (s : Nat) (h : s < 2 ^ 64) :
    priorCount (alistPut bkt tag (putUint64 s)) tag = s := by
  unfold priorCount
  rw [alistGet_put_self]
  simp [putUint64_length, leUint64_putUint64 s h]

/-- The result of `IsReplay` in the well-formed open case, written in terms
of the stored counter. -/
theorem isReplay_eq (k : MixKey) (fs : FS) (tag : Bytes)
    (h : Nat) (f : DBFile) (bkt : Bucket)
    (hdb : k.db = some h) (hfs : alistGet fs h = some f)
    (hbkt : f.replay = some bkt) (htag : tag ≠ []) :
    k.IsReplay fs tag = .ok (decide (satIncr (priorCount bkt tag) ≠ 1),
      alistPut fs h { f with replay := some (alistPut bkt tag
        (putUint64 (satIncr (priorCount bkt tag)))) }) := by
  have hlen : ¬ tag.length = 0 := by simpa using htag
  simp [MixKey.IsReplay, hdb, hfs, hbkt, hlen]

/-- A state in which the replay store already carries a nonzero, well-formed
counter for the tag. -/
def ReplayMarked (k : MixKey) (fs : FS) (tag : Bytes) : Prop :=
  ∃ h f bkt, k.db = some h ∧ alistGet fs h = some f ∧ f.replay = some bkt ∧
    priorCount bkt tag ≠ 0 ∧ priorCount bkt tag < 2 ^ 64

theorem isReplay_of_marked (k : MixKey) (fs : FS) (tag : Bytes)
    (hm : ReplayMarked k fs tag) (htag : tag ≠ []) :
    ∃ fs', k.IsReplay fs tag = .ok (true, fs') ∧ ReplayMarked k fs' tag := by
  obtain ⟨h, f, bkt, hdb, hfs, hbkt, hne, hlt⟩ := hm
  rw [isReplay_eq k fs tag h f bkt hdb hfs hbkt htag]
  have hne1 : satIncr (priorCount bkt tag) ≠ 1 :=
    fun hc => hne ((satIncr_eq_one_iff _ hlt).mp hc)
  refine ⟨alistPut fs h { f with replay := some (alistPut bkt tag
    (putUint64 (satIncr (priorCount bkt tag)))) }, by simp [hne1], ?_⟩
  refine ⟨h, _, _, hdb, alistGet_put_self fs h _, rfl, ?_, ?_⟩
  · rw [priorCount_put bkt tag _ (satIncr_lt _)]
    have := satIncr_pos (priorCount bkt tag)
    omega
  · rw [priorCount_put bkt tag _ (satIncr_lt _)]
    exact satIncr_lt _

theorem isReplayTrace_zero (k : MixKey) (fs : FS) (tag : Bytes) :
    isReplayTrace k fs tag 0 = k.IsReplay fs tag := rfl

theorem isReplayTrace_succ (k : MixKey) (fs : FS) (tag : Bytes) (n : Nat) :
    isReplayTrace k fs tag (n + 1) =
      match isReplayTrace k fs tag n with
      | .aborted r => .aborted r
      | .ok (_, fs') => k.IsReplay fs' tag := rfl

/-- C1: `IsReplay` is an atomic test-and-set on the replay bucket: the empty
tag is always a replay; a non-empty tag returns `true` exactly when the
stored counter was nonzero before the call, and the counter is incremented
with saturation at the maximum; on a tag the key has never seen, the first
call returns `false` and every subsequent call returns `true`. -/
theorem isReplay_test_and_set (k : MixKey) (fs : FS) (tag : Bytes)
    (h : Nat) (f : DBFile) (bkt : Bucket)
    (hdb : k.db = some h) (hfs : alistGet fs h = some f)
    (hbkt : f.replay = some bkt) (hwf : priorCount bkt tag < 2 ^ 64)
    (htag : tag ≠ []) :
    (k.IsReplay fs [] = .ok (true, fs)) ∧
    (k.IsReplay fs tag = .ok (decide (priorCount bkt tag ≠ 0),
       alistPut fs h { f with replay := some (alistPut bkt tag
         (putUint64 (satIncr (priorCount bkt tag)))) })) ∧
    satIncr (priorCount bkt tag) = min (priorCount bkt tag + 1) (2 ^ 64 - 1) ∧
    (priorCount bkt tag = 0 →
      (∃ fs1, isReplayTrace k fs tag 0 = .ok (false, fs1)) ∧
      (∀ n, ∃ fs2, isReplayTrace k fs tag (n + 1) = .ok (true, fs2))) := by
  refine ⟨rfl, ?_, satIncr_saturates _ hwf, ?_⟩
  · rw [isReplay_eq k fs tag h f bkt hdb hfs hbkt htag]
    have : (decide (satIncr (priorCount bkt tag) ≠ 1)) =
        (decide (priorCount bkt tag ≠ 0)) :=
      decide_eq_decide.mpr (not_congr (satIncr_eq_one_iff _ hwf))
    rw [this]
  · intro h0
    have hfirst : k.IsReplay fs tag = .ok (false,
        alistPut fs h { f with replay := some (alistPut bkt tag
          (putUint64 (satIncr (priorCount bkt tag)))) }) := by
      rw [isReplay_eq k fs tag h f bkt hdb hfs hbkt htag]
      have : satIncr (priorCount bkt tag) = 1 := (satIncr_eq_one_iff _ hwf).mpr h0
      simp [this]
    have hmarked : ReplayMarked k
        (alistPut fs h { f with replay := some (alistPut bkt tag
          (putUint64 (satIncr (priorCount bkt tag)))) }) tag := by
      refine ⟨h, _, _, hdb, alistGet_put_self fs h _, rfl, ?_, ?_⟩
      · rw [priorCount_put bkt tag _ (satIncr_lt _)]
        have := satIncr_pos (priorCount bkt tag)
        omega
      · rw [priorCount_put bkt tag _ (satIncr_lt _)]
        exact satIncr_lt _
    refine ⟨⟨_, hfirst⟩, ?_⟩
    -- All calls after the first return true: induction with the marked
    -- invariant.
    have step : ∀ n, ∃ fs2, isReplayTrace k fs tag (n + 1) = .ok (true, fs2) ∧
        ReplayMarked k fs2 tag := by
      intro n
      induction n with
      | zero =>
        obtain ⟨fs2, h2, hm2⟩ := isReplay_of_marked k _ tag hmarked htag
        refine ⟨fs2, ?_, hm2⟩
        rw [isReplayTrace_succ, isReplayTrace_zero, hfirst]
        exact h2
      | succ n ih =>
        obtain ⟨fs2, h2, hm2⟩ := ih
        obtain ⟨fs3, h3, hm3⟩ := isReplay_of_marked k fs2 tag hm2 htag
        refine ⟨fs3, ?_, hm3⟩
        rw [isReplayTrace_succ, h2]
        exact h3
    exact fun n => ⟨(step n).choose, (step n).choose_spec.1⟩

/-- Witness data for the C1 theorem: a freshly created key and store. -/
def c1k : MixKey :=
  { db := some 3, keypair := some (List.replicate 32 7), epoch := 9,
    refCount := 1, unlinkIfExpired := false }

/-- Witness data for the C1 theorem: the key's data directory. -/
def c1f : DBFile := ⟨some [], some []⟩

/-- Witness data for the C1 theorem. -/
def c1fs : FS := [(3, c1f)]

/-- Witness for the C1 theorem at a concrete key, store and tag. -/
theorem isReplay_test_and_set_witness :
    (c1k.db = some 3 ∧ alistGet c1fs 3 = some c1f ∧ c1f.replay = some [] ∧
      priorCount [] [170] < 2 ^ 64 ∧ ([170] : Bytes) ≠ []) ∧
    (c1k.IsReplay c1fs [170] = .ok (false, [(3, ⟨some [], some [([170],
      [1, 0, 0, 0, 0, 0, 0, 0])]⟩)])) := by
  have hgen := isReplay_test_and_set c1k c1fs [170] 3 c1f []
    rfl rfl rfl (by decide) (by decide)
  refine ⟨⟨rfl, rfl, rfl, by decide, by decide⟩, ?_⟩
  exact hgen.2.1.trans (by decide)

/-- Counterexample data for C9: an open key whose replay bucket carries a
3-byte (corrupt) counter for tag `0xAA`. -/
def c9k : MixKey :=
  { db := some 7, keypair := some (List.replicate 32 3), epoch := 5,
    refCount := 1, unlinkIfExpired := false }

/-- Counterexample data for C9: the store with the corrupt entry. -/
def c9fs : FS := [(7, ⟨some [], some [([170], [1, 2, 3])]⟩)]

/-- Counterexample for C9: on a stored replay-counter value of length 3 the
code does not panic — it silently treats the corrupt value as counter 0,
returns `false`, and overwrites the entry with a fresh counter of 1. -/
theorem isReplay_corrupt_counterexample :
    c9k.IsReplay c9fs [170] =
      .ok (false, [(7, ⟨some [], some [([170], [1, 0, 0, 0, 0, 0, 0, 0])]⟩)]) := by
  decide

/-- C9 amended: during steady state `IsReplay` panics when the replay bucket
itself is missing (and on a failed transaction, which the model cannot
produce), but a stored counter whose length is not 8 bytes is silently
treated as counter 0: the call returns `false` and overwrites the entry with
a well-formed counter of 1. -/
theorem isReplay_corrupt_entry (k : MixKey) (fs : FS) (tag : Bytes)
    (h : Nat) (f : DBFile) (bkt : Bucket) (b : Bytes)
    (hdb : k.db = some h) (hfs : alistGet fs h = some f) (htag : tag ≠ []) :
    (f.replay = none → k.IsReplay fs tag = .aborted .replayBucketMissing) ∧
    (f.replay = some bkt → alistGet bkt tag = some b → b.length ≠ 8 →
      k.IsReplay fs tag = .ok (false, alistPut fs h
        { f with replay := some (alistPut bkt tag (putUint64 1)) })) := by
  have hlen : ¬ tag.length = 0 := by simpa using htag
  constructor
  · intro hnone
    simp [MixKey.IsReplay, hdb, hfs, hnone, hlen]
  · intro hbkt hb hblen
    have hc : priorCount bkt tag = 0 := by
      simp [priorCount, hb, hblen]
    have hs : satIncr (priorCount bkt tag) = 1 := by
      rw [hc]
      unfold satIncr
      split <;> omega
    rw [isReplay_eq k fs tag h f bkt hdb hfs hbkt htag, hs]
    simp

/-- Witness data for the amended C9 theorem. -/
def c9wfs : FS := [(7, ⟨some [], none⟩), (8, ⟨some [], some [([170], [1, 2, 3])]⟩)]

/-- Witness for the amended C9 theorem: a key over a store with the replay
bucket missing panics; a key over a store with a 3-byte counter returns
`false` and repairs the entry. -/
theorem isReplay_corrupt_entry_witness :
    (c9k.db = some 7 ∧ alistGet c9wfs 7 = some ⟨some [], none⟩ ∧
      ([170] : Bytes) ≠ []) ∧
    (c9k.IsReplay c9wfs [170] = .aborted .replayBucketMissing) := by
  have hgen := isReplay_corrupt_entry c9k c9wfs [170] 7 ⟨some [], none⟩ [] []
    rfl rfl (by decide)
  exact ⟨⟨rfl, rfl, by decide⟩, hgen.1 rfl⟩

/-- The destination of `os.Remove`: dropping the file from the modelled data
directory always makes later lookups fail. -/
theorem alistGet_remove (fs : FS) (h : Nat) :
    alistGet (fs.filter (fun p : Nat × DBFile => decide (p.1 ≠ h))) h = none :=
  alistGet_filter_self fs h

/-- C4: when the refcount reaches zero, the key is closed: the store handle
is dropped and the private key material is reset; the backing database file
is unlinked iff `unlinkIfExpired` is set and the key's epoch is strictly
less than `current - 1` at close time; otherwise the data directory is left
untouched. -/
theorem deref_forceClose (k : MixKey) (fs : FS) (now : Nat)
    (h : Nat) (p : Bytes)
    (hrc : k.refCount = 1) (hdb : k.db = some h) (hkp : k.keypair = some p)
    (hnow1 : 1 ≤ now) (hnow2 : now < 2 ^ 64) :
    ∃ k' fs', k.Deref fs now = .ok (k', fs') ∧
      k'.db = none ∧ k'.keypair = none ∧
      ((k.unlinkIfExpired = true ∧ k.epoch < now - 1) →
        alistGet fs' h = none) ∧
      (¬ (k.unlinkIfExpired = true ∧ k.epoch < now - 1) → fs' = fs) := by
  have hpred : (now + (2 ^ 64 - 1)) % 2 ^ 64 = now - 1 := by omega
  by_cases hcond : k.unlinkIfExpired = true ∧ k.epoch < now - 1
  · refine ⟨{ k with refCount := 0, db := none, keypair := none },
      fs.filter (fun q : Nat × DBFile => decide (q.1 ≠ h)), ?_, rfl, rfl,
      fun _ => alistGet_remove fs h, fun hn => absurd hcond hn⟩
    obtain ⟨hu, he⟩ := hcond
    simp [MixKey.Deref, MixKey.forceClose, hrc, hdb, hkp, hpred, hu, he, wrap32]
    intro hcontra
    exfalso
    omega
  · refine ⟨{ k with refCount := 0, db := none, keypair := none }, fs, ?_,
      rfl, rfl, fun hc => absurd hc hcond, fun _ => rfl⟩
    simp only [MixKey.Deref, MixKey.forceClose, hrc, hdb, hkp, hpred]
    norm_num [wrap32]
    intro hu he
    exact (hcond ⟨hu, he⟩).elim

/-- Witness data for the C4 theorem: an expired key with cleanup requested. -/
def c4k : MixKey :=
  { db := some 6, keypair := some (List.replicate 32 1), epoch := 6,
    refCount := 1, unlinkIfExpired := true }

/-- Witness data for the C4 theorem. -/
def c4fs : FS := [(6, ⟨some [], some []⟩)]

/-- Witness for the C4 theorem: closing the epoch-6 key at wall-clock epoch
9 with cleanup requested unlinks the file (6 < 9 - 1). -/
theorem deref_forceClose_witness :
    (c4k.refCount = 1 ∧ c4k.db = some 6 ∧
      c4k.keypair = some (List.replicate 32 1) ∧ 1 ≤ 9 ∧ 9 < 2 ^ 64) ∧
    (∃ k' fs', c4k.Deref c4fs 9 = .ok (k', fs') ∧
      k'.db = none ∧ k'.keypair = none ∧
      ((c4k.unlinkIfExpired = true ∧ c4k.epoch < 9 - 1) →
        alistGet fs' 6 = none) ∧
      (¬ (c4k.unlinkIfExpired = true ∧ c4k.epoch < 9 - 1) → fs' = c4fs)) := by
  refine ⟨⟨rfl, rfl, rfl, by decide, by decide⟩, ?_⟩
  exact deref_forceClose c4k c4fs 9 6 (List.replicate 32 1) rfl rfl rfl
    (by decide) (by decide)

theorem refN_zero (k : MixKey) : refN 0 k = .ok k := rfl

theorem refN_succ (n : Nat) (k : MixKey) :
    refN (n + 1) k =
      match refN n k with
      | .aborted r => .aborted r
      | .ok k' => k'.Ref := rfl

theorem derefN_zero (now : Nat) (k : MixKey) (fs : FS) (c : Nat) :
    derefN now 0 k fs c = .ok (k, fs, c) := rfl

theorem derefN_succ (now n : Nat) (k : MixKey) (fs : FS) (c : Nat) :
    derefN now (n + 1) k fs c =
      match k.Deref fs now with
      | .aborted r => .aborted r
      | .ok (k', fs') =>
        derefN now n k' fs' (c + if wrap32 (k.refCount - 1) = 0 then 1 else 0) := rfl

theorem Ref_ok (k : MixKey) (h1 : 1 ≤ k.refCount)
    (h2 : k.refCount + 1 ≤ 2 ^ 31 - 1) :
    k.Ref = .ok { k with refCount := k.refCount + 1 } := by
  unfold MixKey.Ref
  rw [wrap32_eq_self _ (by omega) (by omega), if_neg (by omega)]

theorem Ref_panic (k : MixKey) (h1 : -2 ^ 31 ≤ k.refCount) (h2 : k.refCount ≤ 0) :
    k.Ref = .aborted .refcountZeroOrNegative := by
  unfold MixKey.Ref
  rw [wrap32_eq_self _ (by omega) (by omega), if_pos (by omega)]

theorem Deref_ok_noclose (k : MixKey) (fs : FS) (now : Nat)
    (h1 : 2 ≤ k.refCount) (h2 : k.refCount ≤ 2 ^ 31 - 1) :
    k.Deref fs now = .ok ({ k with refCount := k.refCount - 1 }, fs) := by
  unfold MixKey.Deref
  rw [wrap32_eq_self _ (by omega) (by omega), if_neg (by omega), if_neg (by omega)]

theorem Deref_panic (k : MixKey) (fs : FS) (now : Nat)
    (h1 : -2 ^ 31 < k.refCount) (h2 : k.refCount ≤ 0) :
    k.Deref fs now = .aborted .refcountNegative := by
  unfold MixKey.Deref
  rw [wrap32_eq_self _ (by omega) (by omega), if_neg (by omega), if_pos (by omega)]

theorem Deref_close (k : MixKey) (fs : FS) (now : Nat) (h1 : k.refCount = 1) :
    k.Deref fs now = .ok (MixKey.forceClose { k with refCount := 0 } fs now) := by
  unfold MixKey.Deref
  rw [h1]
  norm_num [wrap32]

theorem forceClose_closed (k : MixKey) (fs : FS) (now : Nat) :
    (MixKey.forceClose k fs now).1.db = none ∧
    (MixKey.forceClose k fs now).1.keypair = none := by
  obtain ⟨db, kp, ep, rc, ul⟩ := k
  cases db <;> cases kp <;> simp [MixKey.forceClose]

theorem refN_ok (n : Nat) (k : MixKey) (h1 : 1 ≤ k.refCount)
    (h2 : k.refCount + n ≤ 2 ^ 31 - 1) :
    refN n k = .ok { k with refCount := k.refCount + n } := by
  induction n with
  | zero =>
    rw [refN_zero]
    norm_num
  | succ n ih =>
    have h2' : k.refCount + (n : Int) ≤ 2 ^ 31 - 1 := by push_cast at h2; omega
    rw [refN_succ, ih h2']
    show MixKey.Ref { k with refCount := k.refCount + n } = _
    rw [Ref_ok _ (by simp; omega) (by simp; push_cast at h2; omega)]
    simp only [Outcome.ok.injEq]
    obtain ⟨db, kp, ep, rc, ul⟩ := k
    simp only [MixKey.mk.injEq, true_and, and_true]
    push_cast
    ring

theorem derefN_noclose (now n : Nat) (k : MixKey) (fs : FS) (c : Nat)
    (h1 : (n : Int) + 1 ≤ k.refCount) (h2 : k.refCount ≤ 2 ^ 31 - 1) :
    derefN now n k fs c = .ok ({ k with refCount := k.refCount - n }, fs, c) := by
  induction n generalizing k c with
  | zero =>
    rw [derefN_zero]
    norm_num
  | succ n ih =>
    rw [derefN_succ,
      Deref_ok_noclose k fs now (by push_cast at h1; omega) h2]
    show derefN now n { k with refCount := k.refCount - 1 } fs
      (c + if wrap32 (k.refCount - 1) = 0 then 1 else 0) = _
    rw [wrap32_eq_self _ (by push_cast at h1; omega) (by omega),
      if_neg (by push_cast at h1; omega), Nat.add_zero,
      ih _ _ (by simp; push_cast at h1; omega) (by simp; omega)]
    simp only [Outcome.ok.injEq, Prod.mk.injEq]
    obtain ⟨db, kp, ep, rc, ul⟩ := k
    simp only [MixKey.mk.injEq, true_and, and_true]
    push_cast
    ring

theorem derefN_add (now a b : Nat) (k : MixKey) (fs : FS) (c : Nat) :
    derefN now (a + b) k fs c =
      match derefN now a k fs c with
      | .aborted r => .aborted r
      | .ok (k', fs', c') => derefN now b k' fs' c' := by
  induction a generalizing k fs c with
  | zero =>
    rw [Nat.zero_add, derefN_zero]
  | succ a ih =>
    rw [show a + 1 + b = a + b + 1 from by omega, derefN_succ, derefN_succ]
    cases hd : k.Deref fs now with
    | aborted r => rfl
    | ok pr =>
      obtain ⟨k', fs'⟩ := pr
      exact ih k' fs' _

/-- C3 amended: for every `N` with `N + 2 ≤ 2^31` (so the `int32` refcount
never overflows), `N` `Ref` calls balanced by `N + 1` `Deref` calls (the
last dropping the initial reference from `New`) close the key exactly once;
`Ref` on a zero or negative count panics, and a `Deref` that takes the
count below zero panics. -/
theorem refcount_balanced (k : MixKey) (fs : FS) (now : Nat) (N : Nat)
    (hrc : k.refCount = 1) (hN : (N : Int) + 2 ≤ 2 ^ 31) :
    (∃ k' fs', refDerefSeq N k fs now = .ok (k', fs', 1) ∧
      k'.db = none ∧ k'.keypair = none) ∧
    (∀ k2 : MixKey, -2 ^ 31 ≤ k2.refCount → k2.refCount ≤ 0 →
      k2.Ref = .aborted .refcountZeroOrNegative) ∧
    (∀ (k2 : MixKey) (fs2 : FS) (now2 : Nat),
      -2 ^ 31 < k2.refCount → k2.refCount ≤ 0 →
      k2.Deref fs2 now2 = .aborted .refcountNegative) := by
  refine ⟨?_, fun k2 a b => Ref_panic k2 a b,
    fun k2 fs2 now2 a b => Deref_panic k2 fs2 now2 a b⟩
  obtain ⟨db, kp, ep, rc, ul⟩ := k
  simp only [MixKey.refCount] at hrc
  subst hrc
  have h1 : refN N ⟨db, kp, ep, 1, ul⟩ = .ok ⟨db, kp, ep, 1 + N, ul⟩ := by
    have := refN_ok N ⟨db, kp, ep, 1, ul⟩ (by simp) (by simp; omega)
    simpa using this
  have h2 : derefN now N (⟨db, kp, ep, 1 + N, ul⟩ : MixKey) fs 0 =
      .ok (⟨db, kp, ep, 1, ul⟩, fs, 0) := by
    have := derefN_noclose now N ⟨db, kp, ep, 1 + N, ul⟩ fs 0
      (by simp; omega) (by simp; omega)
    simp only [MixKey.refCount] at this
    rw [show 1 + (N : Int) - N = 1 from by ring] at this
    exact this
  have h3 : (⟨db, kp, ep, 1, ul⟩ : MixKey).Deref fs now =
      .ok (MixKey.forceClose ⟨db, kp, ep, 0, ul⟩ fs now) := by
    have := Deref_close ⟨db, kp, ep, 1, ul⟩ fs now rfl
    simpa using this
  refine ⟨(MixKey.forceClose ⟨db, kp, ep, 0, ul⟩ fs now).1,
    (MixKey.forceClose ⟨db, kp, ep, 0, ul⟩ fs now).2, ?_,
    (forceClose_closed _ fs now).1, (forceClose_closed _ fs now).2⟩
  unfold refDerefSeq
  rw [h1]
  show derefN now (N + 1) ⟨db, kp, ep, 1 + N, ul⟩ fs 0 = _
  rw [derefN_add now N 1, h2]
  show derefN now 1 (⟨db, kp, ep, 1, ul⟩ : MixKey) fs 0 = _
  rw [show (1 : Nat) = 0 + 1 from rfl, derefN_succ, h3]
  show derefN now 0 (MixKey.forceClose ⟨db, kp, ep, 0, ul⟩ fs now).1
    (MixKey.forceClose ⟨db, kp, ep, 0, ul⟩ fs now).2
    (0 + if wrap32 ((⟨db, kp, ep, 1, ul⟩ : MixKey).refCount - 1) = 0
      then 1 else 0) = _
  rw [derefN_zero]
  norm_num [wrap32]

theorem refDerefSeq_of_refN_aborted (N : Nat) (k : MixKey) (fs : FS)
    (now : Nat) (r : PanicReason) (h : refN N k = .aborted r) :
    refDerefSeq N k fs now = .aborted r := by
  unfold refDerefSeq
  rw [h]

/-- Counterexample data for C3: a freshly opened key. -/
def c3k : MixKey := ⟨some 0, some [0], 0, 1, false⟩

/-- Counterexample for C3: at `N = 2^31 - 1` the `int32` refcount overflows,
so the sequence of `N` `Ref` calls panics and the key is never closed,
refuting the claim for that `N`. -/
theorem refcount_overflow_counterexample :
    refDerefSeq 2147483647 c3k [] 0 = .aborted .refcountZeroOrNegative := by
  have h1 : refN 2147483646 c3k =
      .ok { c3k with refCount := c3k.refCount + (2147483646 : Nat) } :=
    refN_ok _ _ (by norm_num [c3k]) (by norm_num [c3k])
  have h2 : MixKey.Ref { c3k with refCount := c3k.refCount + (2147483646 : Nat) } =
      .aborted .refcountZeroOrNegative := by
    unfold MixKey.Ref
    have hw : wrap32 (({ c3k with refCount := c3k.refCount + (2147483646 : Nat) } :
        MixKey).refCount + 1) = -2 ^ 31 := by
      norm_num [c3k, wrap32]
    rw [hw, if_pos (by norm_num)]
  have h3 : refN 2147483647 c3k = .aborted .refcountZeroOrNegative := by
    rw [show (2147483647 : Nat) = 2147483646 + 1 from by norm_num, refN_succ, h1]
    exact h2
  exact refDerefSeq_of_refN_aborted _ _ _ _ _ h3

/-- Witness for the amended C3 theorem at `N = 2`. -/
theorem refcount_balanced_witness :
    (c3k.refCount = 1 ∧ ((2 : Nat) : Int) + 2 ≤ 2 ^ 31) ∧
    (∃ k' fs', refDerefSeq 2 c3k [] 5 = .ok (k', fs', 1) ∧
      k'.db = none ∧ k'.keypair = none) :=
  ⟨⟨rfl, by norm_num⟩, (refcount_balanced c3k [] 5 2 rfl (by norm_num)).1⟩

/-- The metadata bucket `mixkey.New` writes when it creates a fresh key:
version byte, private key bytes, and the little-endian epoch. -/
def mkMeta (priv : Bytes) (E : Nat) : Bucket :=
  alistPut (alistPut (alistPut [] versionKey [0]) pkKey priv) epochKey
    (putUint64 E)

theorem alistGet_mkMeta_version (priv : Bytes) (E : Nat) :
    alistGet (mkMeta priv E) versionKey = some [0] := by
  unfold mkMeta
  rw [alistGet_put_ne _ _ _ _ (by decide), alistGet_put_ne _ _ _ _ (by decide),
    alistGet_put_self]

theorem alistGet_mkMeta_pk (priv : Bytes) (E : Nat) :
    alistGet (mkMeta priv E) pkKey = some priv := by
  unfold mkMeta
  rw [alistGet_put_ne _ _ _ _ (by decide), alistGet_put_self]

theorem alistGet_mkMeta_epoch (priv : Bytes) (E : Nat) :
    alistGet (mkMeta priv E) epochKey = some (putUint64 E) := by
  unfold mkMeta
  rw [alistGet_put_self]

/-- C2: round trip.  A key created at epoch `E` in a directory with no file
for `E`, on which a tag has been marked, then closed (refcount to zero) and
reopened from the same directory, yields the same public key and reports the
marked tag as a replay. -/
theorem mixkey_roundtrip (fs0 : FS) (E : Nat) (priv priv2 t : Bytes) (now : Nat)
    (hfs : alistGet fs0 E = none) (hpriv : priv.length = 32) (hE : E < 2 ^ 64)
    (ht : t ≠ []) :
    ∃ k1 fs1 fs2 k1c fs3 k2 fs4 fs5,
      newMixKey fs0 E priv = .ok (k1, fs1) ∧
      k1.IsReplay fs1 t = .ok (false, fs2) ∧
      k1.Deref fs2 now = .ok (k1c, fs3) ∧
      k1c.db = none ∧ k1c.keypair = none ∧
      newMixKey fs3 E priv2 = .ok (k2, fs4) ∧
      k2.PublicKey = k1.PublicKey ∧
      k2.PublicKey = some (derivePublicKey priv) ∧
      k2.IsReplay fs4 t = .ok (true, fs5) := by
  have hsat0 : satIncr 0 = 1 := by norm_num [satIncr]
  have hsat1 : satIncr 1 = 2 := by norm_num [satIncr]
  -- Step 1: creation writes the fresh metadata bucket and an empty replay
  -- bucket.
  have hA : newMixKey fs0 E priv = .ok (⟨some E, some priv, E, 1, false⟩,
      alistPut (alistPut fs0 E ⟨none, none⟩) E
        ⟨some (mkMeta priv E), some []⟩) := by
    simp [newMixKey, hfs, alistGet, mkMeta]
  -- Step 2: the first IsReplay reports a fresh tag and stores counter 1.
  have hB : (⟨some E, some priv, E, 1, false⟩ : MixKey).IsReplay
      (alistPut (alistPut fs0 E ⟨none, none⟩) E
        ⟨some (mkMeta priv E), some []⟩) t =
      .ok (false, alistPut (alistPut (alistPut fs0 E ⟨none, none⟩) E
        ⟨some (mkMeta priv E), some []⟩) E
        ⟨some (mkMeta priv E), some (alistPut [] t (putUint64 1))⟩) := by
    rw [isReplay_eq _ _ t E ⟨some (mkMeta priv E), some []⟩ [] rfl
      (alistGet_put_self _ _ _) rfl ht]
    rw [show priorCount [] t = 0 from rfl, hsat0]
    simp
  -- Step 3: Deref closes the key; the file stays (no unlink requested).
  have hC : (⟨some E, some priv, E, 1, false⟩ : MixKey).Deref
      (alistPut (alistPut (alistPut fs0 E ⟨none, none⟩) E
        ⟨some (mkMeta priv E), some []⟩) E
        ⟨some (mkMeta priv E), some (alistPut [] t (putUint64 1))⟩) now =
      .ok (⟨none, none, E, 0, false⟩,
        alistPut (alistPut (alistPut fs0 E ⟨none, none⟩) E
          ⟨some (mkMeta priv E), some []⟩) E
          ⟨some (mkMeta priv E), some (alistPut [] t (putUint64 1))⟩) := by
    rw [Deref_close _ _ now rfl]
    simp [MixKey.forceClose]
  -- Step 4: reopening loads the stored keypair and keeps the replay bucket.
  have hD : newMixKey (alistPut (alistPut (alistPut fs0 E ⟨none, none⟩) E
      ⟨some (mkMeta priv E), some []⟩) E
      ⟨some (mkMeta priv E), some (alistPut [] t (putUint64 1))⟩) E priv2 =
      .ok (⟨some E, some priv, E, 1, false⟩,
        alistPut (alistPut (alistPut (alistPut (alistPut fs0 E ⟨none, none⟩) E
          ⟨some (mkMeta priv E), some []⟩) E
          ⟨some (mkMeta priv E), some (alistPut [] t (putUint64 1))⟩) E
          ⟨some (mkMeta priv E), some (alistPut [] t (putUint64 1))⟩) E
          ⟨some (mkMeta priv E), some (alistPut [] t (putUint64 1))⟩) := by
    simp [newMixKey, alistGet_put_self, alistGet_mkMeta_version,
      alistGet_mkMeta_pk, alistGet_mkMeta_epoch, hpriv, putUint64_length,
      leUint64_putUint64 E hE]
  -- Step 5: the reopened key sees the tag as a replay.
  have hF : (⟨some E, some priv, E, 1, false⟩ : MixKey).IsReplay
      (alistPut (alistPut (alistPut (alistPut (alistPut fs0 E ⟨none, none⟩) E
        ⟨some (mkMeta priv E), some []⟩) E
        ⟨some (mkMeta priv E), some (alistPut [] t (putUint64 1))⟩) E
        ⟨some (mkMeta priv E), some (alistPut [] t (putUint64 1))⟩) E
        ⟨some (mkMeta priv E), some (alistPut [] t (putUint64 1))⟩) t =
      .ok (true, alistPut (alistPut (alistPut (alistPut (alistPut
        (alistPut fs0 E ⟨none, none⟩) E
        ⟨some (mkMeta priv E), some []⟩) E
        ⟨some (mkMeta priv E), some (alistPut [] t (putUint64 1))⟩) E
        ⟨some (mkMeta priv E), some (alistPut [] t (putUint64 1))⟩) E
        ⟨some (mkMeta priv E), some (alistPut [] t (putUint64 1))⟩) E
        ⟨some (mkMeta priv E),
          some (alistPut (alistPut [] t (putUint64 1)) t (putUint64 2))⟩) := by
    rw [isReplay_eq _ _ t E
      ⟨some (mkMeta priv E), some (alistPut [] t (putUint64 1))⟩
      (alistPut [] t (putUint64 1)) rfl (alistGet_put_self _ _ _) rfl ht]
    rw [priorCount_put [] t 1 (by norm_num), hsat1]
    simp
  exact ⟨_, _, _, _, _, _, _, _, hA, hB, hC, rfl, rfl, hD, rfl, rfl, hF⟩

/-- Witness for the C2 theorem: an empty data directory, epoch 4, a concrete
keypair and tag. -/
theorem mixkey_roundtrip_witness :
    (alistGet ([] : FS) 4 = none ∧ (List.replicate 32 9 : Bytes).length = 32 ∧
      4 < 2 ^ 64 ∧ ([171] : Bytes) ≠ []) ∧
    (∃ k1 fs1 fs2 k1c fs3 k2 fs4 fs5,
      newMixKey [] 4 (List.replicate 32 9) = .ok (k1, fs1) ∧
      k1.IsReplay fs1 [171] = .ok (false, fs2) ∧
      k1.Deref fs2 0 = .ok (k1c, fs3) ∧
      k1c.db = none ∧ k1c.keypair = none ∧
      newMixKey fs3 4 (List.replicate 32 8) = .ok (k2, fs4) ∧
      k2.PublicKey = k1.PublicKey ∧
      k2.PublicKey = some (derivePublicKey (List.replicate 32 9)) ∧
      k2.IsReplay fs4 [171] = .ok (true, fs5)) :=
  ⟨⟨rfl, by decide, by decide, by decide⟩,
   mixkey_roundtrip [] 4 (List.replicate 32 9) (List.replicate 32 8) [171] 0
     rfl (by decide) (by decide) (by decide)⟩

/-!  PKI authentication characterizations. -/

/-- The peer with id `id` appears in the entry's incoming map and the
descriptor's link key matches the presented public key. -/
def IncomingMatch (e : PkiCacheEntry) (id pk : Bytes) : Prop :=
  ∃ m, alistGet e.incoming id = some m ∧ m.linkKey = pk

/-- The peer appears in the entry's outgoing map with a matching link key. -/
def OutgoingMatch (e : PkiCacheEntry) (id pk : Bytes) : Prop :=
  ∃ m, alistGet e.outgoing id = some m ∧ m.linkKey = pk

/-- The send-grace condition of `authenticateIncoming`: the entry's document
is for the current epoch, or for the next epoch within the early send slack,
or for the previous epoch within the late send slack. -/
def SendGrace (e : PkiCacheEntry) (now elapsed till : Nat) : Prop :=
  e.doc.epoch = now ∨ (e.doc.epoch = succ64 now ∧ till < earlySendSlack) ∨
    (e.doc.epoch = pred64 now ∧ elapsed < lateSendSlack)

theorem authIncomingLoop_nil (now elapsed till : Nat) (id pk : Bytes) (v : Bool) :
    authIncomingLoop now elapsed till id pk [] v = (false, v) := rfl

theorem authIncomingLoop_cons (now elapsed till : Nat) (id pk : Bytes)
    (d : PkiCacheEntry) (rest : List PkiCacheEntry) (v : Bool) :
    authIncomingLoop now elapsed till id pk (d :: rest) v =
      match alistGet d.incoming id with
      | none => authIncomingLoop now elapsed till id pk rest v
      | some m =>
        if m.linkKey ≠ pk then authIncomingLoop now elapsed till id pk rest v
        else if d.doc.epoch = now then (true, true)
        else if d.doc.epoch = succ64 now ∧ till < earlySendSlack then (true, true)
        else if d.doc.epoch = pred64 now ∧ elapsed < lateSendSlack then (true, true)
        else authIncomingLoop now elapsed till id pk rest true := rfl

theorem authIncomingLoop_cons_none (now elapsed till : Nat) (id pk : Bytes)
    (d : PkiCacheEntry) (rest : List PkiCacheEntry) (v : Bool)
    (hget : alistGet d.incoming id = none) :
    authIncomingLoop now elapsed till id pk (d :: rest) v =
      authIncomingLoop now elapsed till id pk rest v := by
  rw [authIncomingLoop_cons, hget]

theorem authIncomingLoop_cons_some (now elapsed till : Nat) (id pk : Bytes)
    (d : PkiCacheEntry) (rest : List PkiCacheEntry) (v : Bool)
    (m : MixDescriptor) (hget : alistGet d.incoming id = some m) :
    authIncomingLoop now elapsed till id pk (d :: rest) v =
      (if m.linkKey ≠ pk then authIncomingLoop now elapsed till id pk rest v
       else if d.doc.epoch = now then (true, true)
       else if d.doc.epoch = succ64 now ∧ till < earlySendSlack then (true, true)
       else if d.doc.epoch = pred64 now ∧ elapsed < lateSendSlack then (true, true)
       else authIncomingLoop now elapsed till id pk rest true) := by
  rw [authIncomingLoop_cons, hget]

theorem authIncomingLoop_spec (now elapsed till : Nat) (id pk : Bytes)
    (ds : List PkiCacheEntry) (v : Bool) :
    ((authIncomingLoop now elapsed till id pk ds v).1 = true ↔
      ∃ e ∈ ds, IncomingMatch e id pk ∧ SendGrace e now elapsed till) ∧
    ((authIncomingLoop now elapsed till id pk ds v).2 = true ↔
      (v = true ∨ ∃ e ∈ ds, IncomingMatch e id pk)) := by
  induction ds generalizing v with
  | nil => simp [authIncomingLoop_nil]
  | cons d rest ih =>
    cases hget : alistGet d.incoming id with
    | none =>
      have hnm : ¬ IncomingMatch d id pk := by
        rintro ⟨m, hm, -⟩
        rw [hget] at hm
        exact Option.noConfusion hm
      rw [authIncomingLoop_cons_none now elapsed till id pk d rest v hget]
      refine ⟨?_, ?_⟩
      · rw [(ih v).1, List.exists_mem_cons_iff]
        simp [hnm]
      · rw [(ih v).2, List.exists_mem_cons_iff]
        simp [hnm]
    | some m =>
      rw [authIncomingLoop_cons_some now elapsed till id pk d rest v m hget]
      by_cases hlk : m.linkKey = pk
      · rw [if_neg (by simp [hlk])]
        have hdm : IncomingMatch d id pk := ⟨m, hget, hlk⟩
        by_cases h1 : d.doc.epoch = now
        · rw [if_pos h1]
          refine ⟨?_, ?_⟩
          · exact ⟨fun _ => ⟨d, List.mem_cons_self d rest,
              hdm, Or.inl h1⟩, fun _ => rfl⟩
          · exact ⟨fun _ => Or.inr ⟨d, List.mem_cons_self d rest, hdm⟩,
              fun _ => rfl⟩
        · rw [if_neg h1]
          by_cases h2 : d.doc.epoch = succ64 now ∧ till < earlySendSlack
          · rw [if_pos h2]
            refine ⟨?_, ?_⟩
            · exact ⟨fun _ => ⟨d, List.mem_cons_self d rest,
                hdm, Or.inr (Or.inl h2)⟩, fun _ => rfl⟩
            · exact ⟨fun _ => Or.inr ⟨d, List.mem_cons_self d rest, hdm⟩,
                fun _ => rfl⟩
          · rw [if_neg h2]
            by_cases h3 : d.doc.epoch = pred64 now ∧ elapsed < lateSendSlack
            · rw [if_pos h3]
              refine ⟨?_, ?_⟩
              · exact ⟨fun _ => ⟨d, List.mem_cons_self d rest,
                  hdm, Or.inr (Or.inr h3)⟩, fun _ => rfl⟩
              · exact ⟨fun _ => Or.inr ⟨d, List.mem_cons_self d rest, hdm⟩,
                  fun _ => rfl⟩
            · rw [if_neg h3]
              have hng : ¬ SendGrace d now elapsed till := by
                rintro (h | h | h)
                exacts [h1 h, h2 h, h3 h]
              refine ⟨?_, ?_⟩
              · rw [(ih true).1, List.exists_mem_cons_iff]
                simp [hng]
              · rw [(ih true).2]
                refine ⟨fun _ => Or.inr ⟨d, List.mem_cons_self d rest, hdm⟩,
                  fun _ => Or.inl rfl⟩
      · rw [if_pos hlk]
        have hnm : ¬ IncomingMatch d id pk := by
          rintro ⟨m', hm', hl'⟩
          rw [hget] at hm'
          exact hlk ((Option.some.injEq _ _ ▸ hm') ▸ hl')
        refine ⟨?_, ?_⟩
        · rw [(ih v).1, List.exists_mem_cons_iff]
          simp [hnm]
        · rw [(ih v).2, List.exists_mem_cons_iff]
          simp [hnm]

/-- Full characterization of `authenticateIncoming` with mix authentication
enabled and a well-formed node id: `isValid` holds exactly when some
searched cache entry matches the credentials, and `canSend` exactly when
some searched entry matches with send grace. -/
theorem authenticateIncoming_spec (cfg : ServerCfg)
    (docs : List (Nat × PkiCacheEntry)) (now elapsed till : Nat)
    (c : PeerCredentials) (hAuth : cfg.disableMixAuthentication = false)
    (hlen : c.additionalData.length = NodeIDLength) :
    ((authenticateIncoming cfg docs now elapsed till c).2 = true ↔
      ∃ e ∈ docsForEpochs docs (incomingEpochs now elapsed till),
        IncomingMatch e c.additionalData c.publicKey) ∧
    ((authenticateIncoming cfg docs now elapsed till c).1 = true ↔
      ∃ e ∈ docsForEpochs docs (incomingEpochs now elapsed till),
        IncomingMatch e c.additionalData c.publicKey ∧
          SendGrace e now elapsed till) := by
  have hid : toNodeID c.additionalData = c.additionalData :=
    toNodeID_of_length _ hlen
  have hlen' : ¬ (c.additionalData.length ≠ NodeIDLength) := by simp [hlen]
  have heq : authenticateIncoming cfg docs now elapsed till c =
      authIncomingLoop now elapsed till c.additionalData c.publicKey
        (docsForEpochs docs (incomingEpochs now elapsed till)) false := by
    simp [authenticateIncoming, hAuth, hlen', hid]
  have hloop := authIncomingLoop_spec now elapsed till c.additionalData
    c.publicKey (docsForEpochs docs (incomingEpochs now elapsed till)) false
  rw [heq]
  exact ⟨hloop.2.trans (by simp), hloop.1⟩

/-- C6: with mix authentication enabled, incoming authentication searches
exactly the epochs `{now}`, plus `now+1` when less than 30 minutes remain,
else plus `now-1` when less than 3 minutes have elapsed; every credential
found in a searched entry's incoming map with a matching link key makes
`isValid` true, and `canSend` is true iff some such matching entry is for
the current epoch, or for the next epoch with less than 2 minutes
remaining, or for the previous epoch with less than 2 minutes elapsed; a
link-key mismatch skips that entry and the rest are still searched. -/
theorem authenticateIncoming_policy (cfg : ServerCfg)
    (docs : List (Nat × PkiCacheEntry)) (now elapsed till : Nat)
    (c : PeerCredentials) (hAuth : cfg.disableMixAuthentication = false)
    (hlen : c.additionalData.length = NodeIDLength) :
    incomingEpochs now elapsed till =
      (if till < 30 * minuteNs then [now, succ64 now]
       else if elapsed < 3 * minuteNs then [now, pred64 now] else [now]) ∧
    ((authenticateIncoming cfg docs now elapsed till c).2 = true ↔
      ∃ e ∈ docsForEpochs docs (incomingEpochs now elapsed till),
        IncomingMatch e c.additionalData c.publicKey) ∧
    ((authenticateIncoming cfg docs now elapsed till c).1 = true ↔
      ∃ e ∈ docsForEpochs docs (incomingEpochs now elapsed till),
        IncomingMatch e c.additionalData c.publicKey ∧
          (e.doc.epoch = now ∨
           (e.doc.epoch = succ64 now ∧ till < 2 * minuteNs) ∨
           (e.doc.epoch = pred64 now ∧ elapsed < 2 * minuteNs))) :=
  ⟨rfl, (authenticateIncoming_spec cfg docs now elapsed till c hAuth hlen).1,
    (authenticateIncoming_spec cfg docs now elapsed till c hAuth hlen).2⟩

/-- Witness data for the C6 theorem: configuration with mix auth enabled. -/
def c6cfg : ServerCfg := ⟨0, false, false⟩

/-- Witness data for the C6 theorem: a descriptor for the peer. -/
def c6desc : MixDescriptor := ⟨1, List.replicate 32 2, [5], 1⟩

/-- Witness data for the C6 theorem: a cache entry for epoch 100 listing the
peer in its incoming map. -/
def c6entry : PkiCacheEntry :=
  ⟨⟨100, [[c6desc]], []⟩, c6desc, [(List.replicate 32 2, c6desc)], []⟩

/-- Witness data for the C6 theorem. -/
def c6docs : List (Nat × PkiCacheEntry) := [(100, c6entry)]

/-- Witness data for the C6 theorem: the peer's credentials. -/
def c6creds : PeerCredentials := ⟨List.replicate 32 2, [5]⟩

/-- Witness for the C6 theorem at a concrete cache and time. -/
theorem authenticateIncoming_policy_witness :
    (c6cfg.disableMixAuthentication = false ∧
      c6creds.additionalData.length = NodeIDLength) ∧
    (incomingEpochs 100 0 epochPeriod =
      (if epochPeriod < 30 * minuteNs then [100, succ64 100]
       else if 0 < 3 * minuteNs then [100, pred64 100] else [100]) ∧
    ((authenticateIncoming c6cfg c6docs 100 0 epochPeriod c6creds).2 = true ↔
      ∃ e ∈ docsForEpochs c6docs (incomingEpochs 100 0 epochPeriod),
        IncomingMatch e c6creds.additionalData c6creds.publicKey) ∧
    ((authenticateIncoming c6cfg c6docs 100 0 epochPeriod c6creds).1 = true ↔
      ∃ e ∈ docsForEpochs c6docs (incomingEpochs 100 0 epochPeriod),
        IncomingMatch e c6creds.additionalData c6creds.publicKey ∧
          (e.doc.epoch = 100 ∨
           (e.doc.epoch = succ64 100 ∧ epochPeriod < 2 * minuteNs) ∨
           (e.doc.epoch = pred64 100 ∧ 0 < 2 * minuteNs)))) :=
  ⟨⟨rfl, by decide⟩,
   authenticateIncoming_policy c6cfg c6docs 100 0 epochPeriod c6creds
     rfl (by decide)⟩

/-- C10: with mix authentication enabled, credentials whose additional data
is not exactly `NodeIDLength` (32) bytes are rejected outright with
`(canSend, isValid) = (false, false)`: no cached document and no timing can
make them valid. -/
theorem authenticateIncoming_badLength (cfg : ServerCfg)
    (docs : List (Nat × PkiCacheEntry)) (now elapsed till : Nat)
    (c : PeerCredentials) (hAuth : cfg.disableMixAuthentication = false)
    (hlen : c.additionalData.length ≠ NodeIDLength) :
    authenticateIncoming cfg docs now elapsed till c = (false, false) := by
  simp [authenticateIncoming, hAuth, hlen]

/-- Witness for the C10 theorem: 3-byte additional data is rejected even
though the cache holds a document listing a peer whose descriptor link key
equals the presented key. -/
theorem authenticateIncoming_badLength_witness :
    (c6cfg.disableMixAuthentication = false ∧
      (PeerCredentials.mk [1, 2, 3] [5]).additionalData.length ≠
        NodeIDLength) ∧
    authenticateIncoming c6cfg c6docs 100 0 0 (PeerCredentials.mk [1, 2, 3] [5]) =
      (false, false) :=
  ⟨⟨rfl, by decide⟩,
   authenticateIncoming_badLength c6cfg c6docs 100 0 0
     (PeerCredentials.mk [1, 2, 3] [5]) rfl (by decide)⟩

/-- Counterexample data for C7: a cache entry for epoch 101 (= current+1)
listing the peer. -/
def c7entry : PkiCacheEntry :=
  ⟨⟨101, [[c6desc]], []⟩, c6desc, [(List.replicate 32 2, c6desc)], []⟩

/-- Counterexample data for C7: the document cache holding only the
next-epoch entry. -/
def c7docs : List (Nat × PkiCacheEntry) := [(101, c7entry)]

/-- Counterexample for C7: at `now = 100`, `elapsed = 0` and `remaining`
equal to the full epoch duration, a peer that appears only in the cached
document for epoch 101 is rejected with `(canSend, isValid) = (false,
false)` — the next epoch's document is not searched yet, so `isValid` is
not true as the claim states. -/
theorem authIncoming_nextEpoch_counterexample :
    authenticateIncoming c6cfg c7docs 100 0 epochPeriod c6creds =
      (false, false) := by
  decide

/-- No searched entry can match when both consulted cache slots either are
empty or do not list the peer. -/
theorem no_incoming_match_pair (docs : List (Nat × PkiCacheEntry))
    (a b : Nat) (id pk : Bytes)
    (ha : ∀ e', alistGet docs a = some e' → alistGet e'.incoming id = none)
    (hb : ∀ e', alistGet docs b = some e' → alistGet e'.incoming id = none) :
    ¬ ∃ e ∈ docsForEpochs docs [a, b], IncomingMatch e id pk := by
  rintro ⟨e', he', m', hm', -⟩
  unfold docsForEpochs at he'
  rcases List.mem_filterMap.mp he' with ⟨ep, hepmem, hget⟩
  cases hepmem with
  | head =>
    rw [ha e' hget] at hm'
    exact Option.noConfusion hm'
  | tail _ htl =>
    cases htl with
    | head =>
      rw [hb e' hget] at hm'
      exact Option.noConfusion hm'
    | tail _ h0 => exact absurd h0 (List.not_mem_nil _)

/-- C7 amended: with mix authentication enabled and a node appearing only in
the cached document for epoch `now+1`, authentication at `elapsed = 0` and
`remaining` equal to the full epoch duration returns `(canSend, isValid) =
(false, false)` (the next epoch is only searched within 30 minutes of the
transition); with `remaining` under 2 minutes it returns `(true, true)`. -/
theorem authIncoming_nextEpoch_grace (cfg : ServerCfg)
    (docs : List (Nat × PkiCacheEntry)) (now : Nat) (c : PeerCredentials)
    (e : PkiCacheEntry) (m : MixDescriptor)
    (hAuth : cfg.disableMixAuthentication = false)
    (hlen : c.additionalData.length = NodeIDLength)
    (hNow : ∀ e', alistGet docs now = some e' →
      alistGet e'.incoming c.additionalData = none)
    (hPrev : ∀ e', alistGet docs (pred64 now) = some e' →
      alistGet e'.incoming c.additionalData = none)
    (hNext : alistGet docs (succ64 now) = some e)
    (hm : alistGet e.incoming c.additionalData = some m)
    (hpk : m.linkKey = c.publicKey)
    (hep : e.doc.epoch = succ64 now) :
    (authenticateIncoming cfg docs now 0 epochPeriod c = (false, false)) ∧
    (∀ till, till < 2 * minuteNs → ∀ elapsed,
      authenticateIncoming cfg docs now elapsed till c = (true, true)) := by
  constructor
  · have hep1 : incomingEpochs now 0 epochPeriod = [now, pred64 now] := by
      unfold incomingEpochs pkiEarlyConnectSlack pkiLateConnectSlack
        epochPeriod minuteNs
      norm_num
    have hspec := authenticateIncoming_spec cfg docs now 0 epochPeriod c
      hAuth hlen
    have hnone : ¬ ∃ e' ∈ docsForEpochs docs (incomingEpochs now 0 epochPeriod),
        IncomingMatch e' c.additionalData c.publicKey := by
      rw [hep1]
      exact no_incoming_match_pair docs now (pred64 now) c.additionalData
        c.publicKey hNow hPrev
    have h2 : (authenticateIncoming cfg docs now 0 epochPeriod c).2 = false :=
      Bool.eq_false_iff.mpr (fun hb => hnone (hspec.1.mp hb))
    have h1 : (authenticateIncoming cfg docs now 0 epochPeriod c).1 = false :=
      Bool.eq_false_iff.mpr (fun hb =>
        hnone (let ⟨e', he', hm', _⟩ := hspec.2.mp hb; ⟨e', he', hm'⟩))
    exact Prod.ext_iff.mpr ⟨h1, h2⟩
  · intro till ht2 elapsed
    have h30 : till < pkiEarlyConnectSlack := by
      unfold pkiEarlyConnectSlack minuteNs
      unfold minuteNs at ht2
      omega
    have hin : incomingEpochs now elapsed till = [now, succ64 now] := by
      unfold incomingEpochs
      rw [if_pos h30]
    have hspec := authenticateIncoming_spec cfg docs now elapsed till c
      hAuth hlen
    have hmem : e ∈ docsForEpochs docs (incomingEpochs now elapsed till) := by
      rw [hin]
      unfold docsForEpochs
      exact List.mem_filterMap.mpr ⟨succ64 now, by simp, hNext⟩
    have hmatch : IncomingMatch e c.additionalData c.publicKey := ⟨m, hm, hpk⟩
    have hgrace : SendGrace e now elapsed till :=
      Or.inr (Or.inl ⟨hep, ht2⟩)
    exact Prod.ext_iff.mpr ⟨hspec.2.mpr ⟨e, hmem, hmatch, hgrace⟩,
      hspec.1.mpr ⟨e, hmem, hmatch⟩⟩

/-- Witness for the amended C7 theorem at the concrete next-epoch-only
cache. -/
theorem authIncoming_nextEpoch_grace_witness :
    (c6cfg.disableMixAuthentication = false ∧
      c6creds.additionalData.length = NodeIDLength ∧
      alistGet c7docs (succ64 100) = some c7entry ∧
      alistGet c7entry.incoming c6creds.additionalData = some c6desc ∧
      c6desc.linkKey = c6creds.publicKey ∧
      c7entry.doc.epoch = succ64 100) ∧
    (authenticateIncoming c6cfg c7docs 100 0 epochPeriod c6creds =
      (false, false)) ∧
    (authenticateIncoming c6cfg c7docs 100 30 (1 * minuteNs) c6creds =
      (true, true)) := by
  have hnow : alistGet c7docs 100 = (none : Option PkiCacheEntry) := by decide
  have hprev : alistGet c7docs (pred64 100) = (none : Option PkiCacheEntry) := by
    decide
  have hthm := authIncoming_nextEpoch_grace c6cfg c7docs 100 c6creds c7entry
    c6desc rfl (by decide)
    (fun e' h => by rw [hnow] at h; exact Option.noConfusion h)
    (fun e' h => by rw [hprev] at h; exact Option.noConfusion h)
    (by decide) (by decide) (by decide) (by decide)
  exact ⟨⟨rfl, by decide, by decide, by decide, by decide, by decide⟩,
    hthm.1, hthm.2 (1 * minuteNs) (by decide) 30⟩

theorem authOutgoingLoop_nil (now : Nat) (id pk : Bytes)
    (dsc : Option MixDescriptor) (v : Bool) :
    authOutgoingLoop now id pk [] dsc v = (dsc, false, v) := rfl

theorem authOutgoingLoop_cons (now : Nat) (id pk : Bytes) (d : PkiCacheEntry)
    (rest : List PkiCacheEntry) (dsc : Option MixDescriptor) (v : Bool) :
    authOutgoingLoop now id pk (d :: rest) dsc v =
      match alistGet d.outgoing id with
      | none => authOutgoingLoop now id pk rest dsc v
      | some m =>
        if m.linkKey ≠ pk then authOutgoingLoop now id pk rest dsc v
        else if d.doc.epoch = now then (some m, true, true)
        else authOutgoingLoop now id pk rest (some m) true := rfl

theorem authOutgoingLoop_cons_none (now : Nat) (id pk : Bytes)
    (d : PkiCacheEntry) (rest : List PkiCacheEntry)
    (dsc : Option MixDescriptor) (v : Bool)
    (hget : alistGet d.outgoing id = none) :
    authOutgoingLoop now id pk (d :: rest) dsc v =
      authOutgoingLoop now id pk rest dsc v := by
  rw [authOutgoingLoop_cons, hget]

theorem authOutgoingLoop_cons_some (now : Nat) (id pk : Bytes)
    (d : PkiCacheEntry) (rest : List PkiCacheEntry)
    (dsc : Option MixDescriptor) (v : Bool) (m : MixDescriptor)
    (hget : alistGet d.outgoing id = some m) :
    authOutgoingLoop now id pk (d :: rest) dsc v =
      (if m.linkKey ≠ pk then authOutgoingLoop now id pk rest dsc v
       else if d.doc.epoch = now then (some m, true, true)
       else authOutgoingLoop now id pk rest (some m) true) := by
  rw [authOutgoingLoop_cons, hget]

theorem authOutgoingLoop_spec (now : Nat) (id pk : Bytes)
    (ds : List PkiCacheEntry) (dsc : Option MixDescriptor) (v : Bool) :
    ((authOutgoingLoop now id pk ds dsc v).2.1 = true ↔
      ∃ e ∈ ds, OutgoingMatch e id pk ∧ e.doc.epoch = now) ∧
    ((authOutgoingLoop now id pk ds dsc v).2.2 = true ↔
      (v = true ∨ ∃ e ∈ ds, OutgoingMatch e id pk)) ∧
    ((v = true → dsc.isSome = true) →
      (authOutgoingLoop now id pk ds dsc v).2.2 = true →
      (authOutgoingLoop now id pk ds dsc v).1.isSome = true) := by
  induction ds generalizing dsc v with
  | nil =>
    simp only [authOutgoingLoop_nil]
    refine ⟨by simp, by simp, ?_⟩
    intro hv h2
    exact hv h2
  | cons d rest ih =>
    cases hget : alistGet d.outgoing id with
    | none =>
      have hnm : ¬ OutgoingMatch d id pk := by
        rintro ⟨m, hm, -⟩
        rw [hget] at hm
        exact Option.noConfusion hm
      rw [authOutgoingLoop_cons_none now id pk d rest dsc v hget]
      refine ⟨?_, ?_, ?_⟩
      · rw [(ih dsc v).1, List.exists_mem_cons_iff]
        simp [hnm]
      · rw [(ih dsc v).2.1, List.exists_mem_cons_iff]
        simp [hnm]
      · exact (ih dsc v).2.2
    | some m =>
      rw [authOutgoingLoop_cons_some now id pk d rest dsc v m hget]
      by_cases hlk : m.linkKey = pk
      · rw [if_neg (by simp [hlk])]
        have hdm : OutgoingMatch d id pk := ⟨m, hget, hlk⟩
        by_cases h1 : d.doc.epoch = now
        · rw [if_pos h1]
          refine ⟨?_, ?_, ?_⟩
          · exact ⟨fun _ => ⟨d, List.mem_cons_self d rest, hdm, h1⟩,
              fun _ => rfl⟩
          · exact ⟨fun _ => Or.inr ⟨d, List.mem_cons_self d rest, hdm⟩,
              fun _ => rfl⟩
          · exact fun _ _ => rfl
        · rw [if_neg h1]
          refine ⟨?_, ?_, ?_⟩
          · rw [(ih (some m) true).1, List.exists_mem_cons_iff]
            have : ¬ (OutgoingMatch d id pk ∧ d.doc.epoch = now) :=
              fun hc => h1 hc.2
            simp [this]
          · rw [(ih (some m) true).2.1]
            exact ⟨fun _ => Or.inr ⟨d, List.mem_cons_self d rest, hdm⟩,
              fun _ => Or.inl rfl⟩
          · intro _ h2
            exact (ih (some m) true).2.2 (fun _ => rfl) h2
      · rw [if_pos hlk]
        have hnm : ¬ OutgoingMatch d id pk := by
          rintro ⟨m', hm', hl'⟩
          rw [hget] at hm'
          exact hlk ((Option.some.injEq _ _ ▸ hm') ▸ hl')
        refine ⟨?_, ?_, ?_⟩
        · rw [(ih dsc v).1, List.exists_mem_cons_iff]
          simp [hnm]
        · rw [(ih dsc v).2.1, List.exists_mem_cons_iff]
          simp [hnm]
        · exact (ih dsc v).2.2

/-- C8: with mix authentication enabled, outgoing authentication uses the
same epoch search set as incoming authentication, and for every credential:
`isValid` is true iff some searched entry's outgoing map matches it (such an
entry also supplies a descriptor), while `canSend` is true only for a match
whose document epoch equals `now` — entries from `now+1` or `now-1` never
enable sending. -/
theorem authenticateOutgoing_policy (cfg : ServerCfg)
    (docs : List (Nat × PkiCacheEntry)) (now elapsed till : Nat)
    (c : PeerCredentials) (hAuth : cfg.disableMixAuthentication = false) :
    (∀ n e t, outgoingEpochs n e t = incomingEpochs n e t) ∧
    ((authenticateOutgoing cfg docs now elapsed till c).2.1 = true ↔
      ∃ e ∈ docsForEpochs docs (outgoingEpochs now elapsed till),
        OutgoingMatch e (toNodeID c.additionalData) c.publicKey ∧
          e.doc.epoch = now) ∧
    ((authenticateOutgoing cfg docs now elapsed till c).2.2 = true ↔
      ∃ e ∈ docsForEpochs docs (outgoingEpochs now elapsed till),
        OutgoingMatch e (toNodeID c.additionalData) c.publicKey) ∧
    ((authenticateOutgoing cfg docs now elapsed till c).2.2 = true →
      (authenticateOutgoing cfg docs now elapsed till c).1.isSome = true) := by
  have heq : authenticateOutgoing cfg docs now elapsed till c =
      authOutgoingLoop now (toNodeID c.additionalData) c.publicKey
        (docsForEpochs docs (outgoingEpochs now elapsed till)) none false := by
    simp [authenticateOutgoing, docsForOutgoing, hAuth]
  have hloop := authOutgoingLoop_spec now (toNodeID c.additionalData)
    c.publicKey (docsForEpochs docs (outgoingEpochs now elapsed till))
    none false
  rw [heq]
  exact ⟨fun _ _ _ => rfl, hloop.1, hloop.2.1.trans (by simp),
    hloop.2.2 (by simp)⟩

/-- Witness data for the C8 theorem: a next-epoch entry listing the peer in
its outgoing map. -/
def c8entry : PkiCacheEntry :=
  ⟨⟨101, [[c6desc]], []⟩, c6desc, [], [(List.replicate 32 2, c6desc)]⟩

/-- Witness data for the C8 theorem. -/
def c8docs : List (Nat × PkiCacheEntry) := [(101, c8entry)]

/-- Witness for the C8 theorem: a peer listed only in the next epoch's
outgoing view is valid but not sendable when the next epoch is searched. -/
theorem authenticateOutgoing_policy_witness :
    c6cfg.disableMixAuthentication = false ∧
    ((∀ n e t, outgoingEpochs n e t = incomingEpochs n e t) ∧
    ((authenticateOutgoing c6cfg c8docs 100 0 minuteNs c6creds).2.1 = true ↔
      ∃ e ∈ docsForEpochs c8docs (outgoingEpochs 100 0 minuteNs),
        OutgoingMatch e (toNodeID c6creds.additionalData) c6creds.publicKey ∧
          e.doc.epoch = 100) ∧
    ((authenticateOutgoing c6cfg c8docs 100 0 minuteNs c6creds).2.2 = true ↔
      ∃ e ∈ docsForEpochs c8docs (outgoingEpochs 100 0 minuteNs),
        OutgoingMatch e (toNodeID c6creds.additionalData) c6creds.publicKey) ∧
    ((authenticateOutgoing c6cfg c8docs 100 0 minuteNs c6creds).2.2 = true →
      (authenticateOutgoing c6cfg c8docs 100 0 minuteNs c6creds).1.isSome =
        true)) :=
  ⟨rfl, authenticateOutgoing_policy c6cfg c8docs 100 0 minuteNs c6creds rfl⟩

/-- The incoming descriptor list as the claim describes it: providers for a
layer-0 mix, the last topology layer for a provider, and the previous
topology layer otherwise. -/
def claimIncomingList (e : PkiCacheEntry) : List MixDescriptor :=
  if e.self.layer = 0 then e.doc.providers
  else if e.self.layer = LayerProvider then
    e.doc.topology.getD (e.doc.topology.length - 1) []
  else e.doc.topology.getD (e.self.layer - 1) []

/-- The outgoing descriptor list as the claim describes it: providers for a
node in the last topology layer, layer 0 for a provider, and the next
topology layer otherwise. -/
def claimOutgoingList (e : PkiCacheEntry) : List MixDescriptor :=
  if e.self.layer + 1 = e.doc.topology.length then e.doc.providers
  else if e.self.layer = LayerProvider then e.doc.topology.getD 0 []
  else e.doc.topology.getD (e.self.layer + 1) []

theorem alistGet_buildFold_isSome (nodes : List MixDescriptor)
    (m0 : List (Bytes × MixDescriptor)) (n : Bytes) :
    ((alistGet (nodes.foldl
        (fun m v => alistPut m (toNodeID v.identityKey) v) m0) n).isSome = true ↔
      ((alistGet m0 n).isSome = true ∨
        n ∈ nodes.map (fun v => toNodeID v.identityKey))) := by
  induction nodes generalizing m0 with
  | nil => simp
  | cons v rest ih =>
    rw [List.foldl_cons, ih]
    by_cases hn : n = toNodeID v.identityKey
    · rw [hn, alistGet_put_self]
      simp
    · rw [alistGet_put_ne _ _ _ _ hn]
      simp [hn]

theorem buildMap_isSome (d : Document) (layer : Nat) (n : Bytes) :
    ((alistGet (buildMap d layer) n).isSome = true ↔
      n ∈ (layerNodes d layer).map (fun v => toNodeID v.identityKey)) := by
  unfold buildMap
  rw [alistGet_buildFold_isSome]
  simp [alistGet]

theorem isOurLayerSane_cases (e : PkiCacheEntry) (isP : Bool)
    (h : isOurLayerSane e isP = true) :
    (e.self.layer = LayerProvider) ∨
    (e.self.layer ≠ LayerProvider ∧
      e.self.layer < e.doc.topology.length) := by
  unfold isOurLayerSane at h
  cases isP with
  | true =>
    left
    by_cases hl : e.self.layer = LayerProvider
    · exact hl
    · simp [hl] at h
  | false =>
    right
    by_cases hl : e.self.layer = LayerProvider
    · simp [hl] at h
    · by_cases hlt : e.doc.topology.length ≤ e.self.layer
      · simp [hl, hlt] at h
      · exact ⟨hl, by omega⟩

theorem layerNodes_id_length (d : Document) (L : Nat)
    (hwfP : ∀ m ∈ d.providers, (m.identityKey).length = NodeIDLength)
    (hwfT : ∀ l ∈ d.topology, ∀ m ∈ l, (m.identityKey).length = NodeIDLength) :
    ∀ m ∈ layerNodes d L, (m.identityKey).length = NodeIDLength := by
  intro m hm
  unfold layerNodes at hm
  by_cases hL : L = LayerProvider
  · rw [if_pos hL] at hm
    exact hwfP m hm
  · rw [if_neg hL] at hm
    by_cases hlt : L < d.topology.length
    · rw [List.getD_eq_getElem _ _ hlt] at hm
      exact hwfT _ (List.getElem_mem hlt) m hm
    · rw [List.getD_eq_default _ _ (by omega)] at hm
      exact absurd hm (List.not_mem_nil m)

theorem incoming_layer_nodes (e : PkiCacheEntry)
    (hlen0 : e.doc.topology.length ≠ 0) (hlen : e.doc.topology.length ≤ 255)
    (hsane : (e.self.layer = LayerProvider) ∨
      (e.self.layer ≠ LayerProvider ∧
        e.self.layer < e.doc.topology.length)) :
    layerNodes e.doc (incomingLayer e) = claimIncomingList e := by
  unfold layerNodes incomingLayer claimIncomingList
  unfold LayerProvider at *
  rcases hsane with hp | ⟨hnp, hlt⟩
  · simp only [hp]
    norm_num
    rw [show (e.doc.topology.length + 255) % 256 =
      e.doc.topology.length - 1 from by omega]
    rw [if_neg (show ¬ (e.doc.topology.length - 1 = 255) from by omega)]
  · simp only [if_neg hnp]
    by_cases h0 : e.self.layer = 0
    · simp only [h0]
      norm_num
    · simp only [if_neg h0]
      rw [if_neg (show ¬ (e.self.layer - 1 = 255) from by omega)]

theorem outgoing_layer_nodes (e : PkiCacheEntry)
    (hlen0 : e.doc.topology.length ≠ 0) (hlen : e.doc.topology.length ≤ 255)
    (hsane : (e.self.layer = LayerProvider) ∨
      (e.self.layer ≠ LayerProvider ∧
        e.self.layer < e.doc.topology.length)) :
    layerNodes e.doc (outgoingLayer e) = claimOutgoingList e := by
  unfold layerNodes outgoingLayer claimOutgoingList
  unfold LayerProvider at *
  rcases hsane with hp | ⟨hnp, hlt⟩
  · simp only [hp]
    rw [if_neg (show ¬ (255 + 1 = e.doc.topology.length) from by omega)]
    norm_num
    rw [if_neg (show ¬ (256 = e.doc.topology.length) from by omega)]
  · by_cases hlast : e.self.layer + 1 = e.doc.topology.length
    · simp only [if_pos hlast]
      norm_num
    · simp only [if_neg hlast, if_neg hnp]
      rw [show (e.self.layer + 1) % 256 = e.self.layer + 1 from by omega]
      rw [if_neg (show ¬ (e.self.layer + 1 = 255) from by omega)]

theorem newPKICacheEntry_eq_of_found (identityPub : Bytes) (cfg : ServerCfg)
    (d : Document) (self : MixDescriptor)
    (hg : getNodeByKey d identityPub = .ok self) :
    newPKICacheEntry identityPub cfg d =
      (if d.topology.length = 0 then .error .missingTopology
       else if cfg.identifier ≠ self.name then .error .nameMismatch
       else if !(isOurLayerSane ⟨d, self, [], []⟩ cfg.isProvider) then
         .error .invalidLayer
       else .ok { doc := d, self := self,
                  incoming := buildMap d (incomingLayer ⟨d, self, [], []⟩),
                  outgoing := buildMap d (outgoingLayer ⟨d, self, [], []⟩) }) := by
  unfold newPKICacheEntry
  rw [hg]

theorem newPKICacheEntry_eq_of_missing (identityPub : Bytes) (cfg : ServerCfg)
    (d : Document) (err : CacheError)
    (hg : getNodeByKey d identityPub = .error err) :
    newPKICacheEntry identityPub cfg d = .error err := by
  unfold newPKICacheEntry
  rw [hg]

/-- C5 amended: for a successfully built cache entry over a document with at
most 255 topology layers (and 32-byte identity keys), a node id is a key of
the incoming map iff it is the identity of a descriptor in the claim's
incoming layer list, and likewise for the outgoing map.  The bound is needed
because the layer computations truncate `len(Topology)` to `uint8`. -/
theorem pkiCacheEntry_maps (identityPub : Bytes) (cfg : ServerCfg)
    (d : Document) (e : PkiCacheEntry) (n : Bytes)
    (hok : newPKICacheEntry identityPub cfg d = .ok e)
    (hlen : d.topology.length ≤ 255)
    (hwfP : ∀ m ∈ d.providers, (m.identityKey).length = NodeIDLength)
    (hwfT : ∀ l ∈ d.topology, ∀ m ∈ l, (m.identityKey).length = NodeIDLength) :
    ((alistGet e.incoming n).isSome = true ↔
      n ∈ (claimIncomingList e).map (fun m => m.identityKey)) ∧
    ((alistGet e.outgoing n).isSome = true ↔
      n ∈ (claimOutgoingList e).map (fun m => m.identityKey)) := by
  cases hg : getNodeByKey d identityPub with
  | error err =>
    rw [newPKICacheEntry_eq_of_missing identityPub cfg d err hg] at hok
    exact absurd hok (by simp)
  | ok self =>
    rw [newPKICacheEntry_eq_of_found identityPub cfg d self hg] at hok
    by_cases hT : d.topology.length = 0
    · rw [if_pos hT] at hok
      exact absurd hok (by simp)
    rw [if_neg hT] at hok
    by_cases hN : cfg.identifier ≠ self.name
    · rw [if_pos hN] at hok
      exact absurd hok (by simp)
    rw [if_neg hN] at hok
    by_cases hS : (!isOurLayerSane ⟨d, self, [], []⟩ cfg.isProvider) = true
    · rw [if_pos hS] at hok
      exact absurd hok (by simp)
    rw [if_neg hS] at hok
    injection hok with he
    subst he
    have hsane : isOurLayerSane ⟨d, self, [], []⟩ cfg.isProvider = true := by
      simpa using hS
    have hsane' := isOurLayerSane_cases _ _ hsane
    constructor
    · show (alistGet (buildMap d (incomingLayer ⟨d, self, [], []⟩)) n).isSome
        = true ↔ _
      rw [buildMap_isSome d (incomingLayer ⟨d, self, [], []⟩) n,
        List.map_congr_left (fun m hm => toNodeID_of_length _
          (layerNodes_id_length d _ hwfP hwfT m hm)),
        incoming_layer_nodes ⟨d, self, [], []⟩ hT hlen hsane']
      exact Iff.rfl
    · show (alistGet (buildMap d (outgoingLayer ⟨d, self, [], []⟩)) n).isSome
        = true ↔ _
      rw [buildMap_isSome d (outgoingLayer ⟨d, self, [], []⟩) n,
        List.map_congr_left (fun m hm => toNodeID_of_length _
          (layerNodes_id_length d _ hwfP hwfT m hm)),
        outgoing_layer_nodes ⟨d, self, [], []⟩ hT hlen hsane']
      exact Iff.rfl

/-- Counterexample data for C5: our own provider descriptor. -/
def c5self : MixDescriptor := ⟨0, List.replicate 32 1, [9], 255⟩

/-- Counterexample data for C5: the sole descriptor of the 256th (last)
topology layer. -/
def c5A : MixDescriptor := ⟨1, List.replicate 32 2, [8], 255⟩

/-- Counterexample data for C5: a document with 256 topology layers, the
first 255 empty and the last holding one node. -/
def c5doc : Document := ⟨200, List.replicate 255 [] ++ [[c5A]], [c5self]⟩

/-- Counterexample data for C5: configuration of a provider. -/
def c5cfg : ServerCfg := ⟨0, true, false⟩

set_option maxRecDepth 2048 in
/-- Counterexample for C5: with 256 topology layers, `uint8(len(Topology)) -
1` wraps to 255, so the provider's incoming map is built from the provider
list instead of the last topology layer: the last layer's node id is not a
key of the incoming map even though the claim says it must be. -/
theorem pkiCacheEntry_truncation_counterexample :
    ((newPKICacheEntry (List.replicate 32 1) c5cfg c5doc).toOption.map
      (fun e => (alistGet e.incoming (List.replicate 32 2)).isSome)) =
        some false ∧
    List.replicate 32 2 ∈
      (c5doc.topology.getD (c5doc.topology.length - 1) []).map
        (fun m => m.identityKey) := by
  decide

/-- Witness data for the amended C5 theorem: the provider. -/
def c5wP : MixDescriptor := ⟨3, List.replicate 32 6, [7], 255⟩

/-- Witness data for the amended C5 theorem: the layer-0 mix. -/
def c5wA : MixDescriptor := ⟨1, List.replicate 32 4, [8], 0⟩

/-- Witness data for the amended C5 theorem: ourselves, in layer 1. -/
def c5wB : MixDescriptor := ⟨2, List.replicate 32 5, [9], 1⟩

/-- Witness data for the amended C5 theorem: a two-layer document. -/
def c5wDoc : Document := ⟨50, [[c5wA], [c5wB]], [c5wP]⟩

/-- Witness data for the amended C5 theorem. -/
def c5wCfg : ServerCfg := ⟨2, false, false⟩

/-- Witness data for the amended C5 theorem: the entry the construction
produces (incoming layer 0, outgoing wraps to the providers). -/
def c5wEntry : PkiCacheEntry :=
  ⟨c5wDoc, c5wB, buildMap c5wDoc 0, buildMap c5wDoc 255⟩

/-- Witness for the amended C5 theorem on a concrete two-layer document. -/
theorem pkiCacheEntry_maps_witness :
    (newPKICacheEntry (List.replicate 32 5) c5wCfg c5wDoc = .ok c5wEntry ∧
      c5wDoc.topology.length ≤ 255) ∧
    ((alistGet c5wEntry.incoming (List.replicate 32 4)).isSome = true ↔
      List.replicate 32 4 ∈
        (claimIncomingList c5wEntry).map (fun m => m.identityKey)) ∧
    ((alistGet c5wEntry.outgoing (List.replicate 32 4)).isSome = true ↔
      List.replicate 32 4 ∈
        (claimOutgoingList c5wEntry).map (fun m => m.identityKey)) :=
  ⟨⟨by decide, by decide⟩,
   pkiCacheEntry_maps (List.replicate 32 5) c5wCfg c5wDoc c5wEntry
     (List.replicate 32 4) (by decide) (by decide) (by decide) (by decide)⟩
